import Mathlib

/-!
Verification development for the onetap structure-merge core
(`src/utils/smartMerger.js`, `src/utils/structureValidator.js`,
`src/utils/projectDetector.js`, `src/utils/fileUtils.js`).

The filesystem is modelled as an association list from paths (segment
lists) to entries; the merge walk (`smartMerge` / `processMerge` /
`handleFolder` / `handleFile`) is translated as a pure state
transformation on that map together with the `Stats` accumulator.
Console logging, spinner output and async scheduling carry no semantic
content and are omitted; `fs.ensureDir` is modelled as creating the
directory entry itself (the walk is pre-order, so parents exist at the
time a child is created).
-/

namespace OneTap

/-- A filesystem path, as a list of segments (an absolute path without
its leading separator; `/etc/app` is `["etc", "app"]`). -/
abbrev Path := List String

/-- A filesystem entry: a directory, or a file with its byte content
(modelled as a string, as the source reads files with `utf8`). -/
inductive FSEntry where
  | dir : FSEntry
  | file (content : String) : FSEntry
deriving DecidableEq, Repr

/-- The filesystem state: an association list from paths to entries. -/
abbrev FS := List (Path × FSEntry)

/-- Look up the entry at a path (first binding wins). -/
def fsRead (fs : FS) (p : Path) : Option FSEntry :=
  match fs.find? (fun e => decide (e.1 = p)) with
  | some e => some e.2
  | none => none

/-- `fs.existsSync`: whether anything (file or directory) is at `p`. -/
def fsExists (fs : FS) (p : Path) : Bool :=
  (fsRead fs p).isSome

/-- Write an entry at a path, replacing any previous binding. -/
def fsWrite (fs : FS) (p : Path) (e : FSEntry) : FS :=
  (p, e) :: fs.filter (fun x => decide (x.1 ≠ p))

/-- `getFileContent` (smartMerger.js): read a file as utf8, `null`
(here `none`) on any error — including a missing path or a directory. -/
def getFileContent (fs : FS) (p : Path) : Option String :=
  match fsRead fs p with
  | some (FSEntry.file c) => some c
  | _ => none

/-- The node kind, a tagged rendering of the source's `"folder"` /
`"file"` string tag. -/
inductive NodeType where
  | folder : NodeType
  | file : NodeType
deriving DecidableEq, Repr

/-- A parsed tree node `{name, type, children, targetPath}`. -/
inductive Node where
  | mk (name : String) (type : NodeType) (children : List Node)
       (targetPath : Option Path) : Node
deriving Repr

def Node.name : Node → String
  | .mk n _ _ _ => n

def Node.type : Node → NodeType
  | .mk _ t _ _ => t

def Node.children : Node → List Node
  | .mk _ _ c _ => c

def Node.targetPath : Node → Option Path
  | .mk _ _ _ tp => tp

/-- One `{folders, files}` counter pair of the stats record. -/
structure StatPair where
  folders : Nat
  files : Nat
deriving DecidableEq, Repr

/-- The `MergeStats` accumulator of `smartMerge`. -/
structure Stats where
  created : StatPair
  preserved : StatPair
  skipped : StatPair
deriving DecidableEq, Repr

def Stats.zero : Stats :=
  ⟨⟨0, 0⟩, ⟨0, 0⟩, ⟨0, 0⟩⟩

def incCreatedFolders (s : Stats) : Stats :=
  { s with created := { s.created with folders := s.created.folders + 1 } }

def incCreatedFiles (s : Stats) : Stats :=
  { s with created := { s.created with files := s.created.files + 1 } }

def incPreservedFolders (s : Stats) : Stats :=
  { s with preserved := { s.preserved with folders := s.preserved.folders + 1 } }

def incPreservedFiles (s : Stats) : Stats :=
  { s with preserved := { s.preserved with files := s.preserved.files + 1 } }

def incSkippedFolders (s : Stats) : Stats :=
  { s with skipped := { s.skipped with folders := s.skipped.folders + 1 } }

def incSkippedFiles (s : Stats) : Stats :=
  { s with skipped := { s.skipped with files := s.skipped.files + 1 } }

/-- Sum of all six stats counters. -/
def Stats.total (s : Stats) : Nat :=
  s.created.folders + s.created.files + s.preserved.folders + s.preserved.files +
    s.skipped.folders + s.skipped.files

/-- The merge context threaded through the walk (the `context` object of
`processMerge`; `verbose` only controls logging and is omitted). -/
structure MergeCtx where
  preserveContent : Bool
  skipCritical : Bool
  dirsOnly : Bool
  projectType : String
deriving DecidableEq, Repr

/-- The options record accepted by `smartMerge`. -/
structure MergeOptions where
  preserveContent : Bool
  skipCritical : Bool
  dirsOnly : Bool
  projectType : String
  isNested : Bool
deriving DecidableEq, Repr

/-- The `smartMerge` defaults: `preserveContent = true`,
`skipCritical = true`, `dirsOnly = false`, `projectType = "unknown"`. -/
def defaultOptions : MergeOptions :=
  ⟨true, true, false, "unknown", false⟩

/-- Whether `pat` is a prefix of `l` (character lists). -/
def listHasPre : List Char → List Char → Bool
  | [], _ => true
  | _ :: _, [] => false
  | a :: as, b :: bs => decide (a = b) && listHasPre as bs

/-- Whether `pat` occurs somewhere in `l`. -/
def listHasSub (pat : List Char) : List Char → Bool
  | [] => pat.isEmpty
  | c :: rest => listHasPre pat (c :: rest) || listHasSub pat rest

/-- JavaScript `s.includes(pat)`. -/
def containsStr (s pat : String) : Bool :=
  listHasSub pat.toList s.toList

/-- JavaScript `\s` on the ASCII range (the source strings are ASCII). -/
def isWsChar (c : Char) : Bool :=
  c = ' ' || c = '\t' || c = '\n' || c = '\r' || c = '\x0b' || c = '\x0c'

/-- JavaScript `s.toLowerCase()` (ASCII). -/
def toLowerStr (s : String) : String :=
  String.mk (s.toList.map Char.toLower)

/-- JavaScript `s.trim()`: strip leading and trailing whitespace. -/
def trimStr (s : String) : String :=
  String.mk (((s.toList.dropWhile isWsChar).reverse.dropWhile isWsChar).reverse)

/-- JavaScript `s.startsWith(pre)`. -/
def strStarts (s pre : String) : Bool :=
  listHasPre pre.toList s.toList

/-- JavaScript `s.endsWith(suf)`. -/
def strEnds (s suf : String) : Bool :=
  listHasPre suf.toList.reverse s.toList.reverse

/-- The character count of a string. -/
def strLen (s : String) : Nat :=
  s.toList.length

/-- Drop the last `n` characters. -/
def dropRightStr (s : String) (n : Nat) : String :=
  String.mk (s.toList.take (s.toList.length - n))

/-- `path.extname` of a plain file name (no directory separators): the
part from the last `.` on, empty when there is no `.` or when the only
`.` is the leading character (dotfiles such as `.env` have no extension). -/
def extname (s : String) : String :=
  let rev := s.toList.reverse
  let after := rev.takeWhile (fun c => decide (c ≠ '.'))
  if after.length = rev.length then ""
  else if after.length + 1 = rev.length then ""
  else "." ++ String.mk after.reverse

/-- `path.basename(filename, ext)` for a plain file name: strips the
suffix `ext` when the name ends with it and is not equal to it. -/
def basenameMinusExt (filename ext : String) : String :=
  if filename ≠ ext ∧ ext ≠ "" ∧ strEnds filename ext then
    dropRightStr filename (strLen ext)
  else filename

/-- `charAt(0).toUpperCase() + slice(1)` as used by the content provider. -/
def capitalize (s : String) : String :=
  match s.toList with
  | [] => ""
  | c :: rest => String.mk (c.toUpper :: rest)

/-- `isSensitiveFolder` (smartMerger.js lines 166-172). -/
def isSensitiveFolder (folderName : String) : Bool :=
  let sensitiveFolders : List String :=
    ["node_modules", ".git", ".vscode", ".idea",
     "dist", "build", "coverage", ".next", ".nuxt"]
  sensitiveFolders.contains (toLowerStr folderName)

/-- `isCriticalFile` (smartMerger.js lines 174-187). The list is kept
with the source's exact casing: the lowercased argument is compared
against it, so the entries that are not all-lowercase can never match. -/
def isCriticalFile (filename : String) : Bool :=
  let criticalFiles : List String :=
    ["package.json", "package-lock.json", "yarn.lock", "pnpm-lock.yaml",
     "vite.config.js", "vite.config.ts",
     "next.config.js", "next.config.ts",
     "angular.json", "nest-cli.json", "nuxt.config.js",
     "tsconfig.json", "jsconfig.json",
     ".env", ".env.local", ".env.production",
     ".gitignore", ".gitattributes",
     "README.md", "LICENSE",
     "docker-compose.yml", "Dockerfile"]
  criticalFiles.contains (toLowerStr filename)

/-- `getReactBoilerplate` (smartMerger.js lines 227-243). -/
def getReactBoilerplate (filename : String) : String :=
  let componentName := basenameMinusExt filename (extname filename)
  let capitalizedName := capitalize componentName
  "import React from \x27react\x27;\n\nconst " ++ capitalizedName ++
    " = () => \x7b\n  return (\n    <div>\n      <h1>" ++ capitalizedName ++
    "</h1>\n    </div>\n  );\n\x7d;\n\nexport default " ++ capitalizedName ++ ";\n"

/-- `getGitignoreTemplate` (smartMerger.js lines 245-256). -/
def getGitignoreTemplate : String :=
  "node_modules/\ndist/\nbuild/\n.env\n.env.local\n.DS_Store\n*.log\ncoverage/\n.nyc_output/\n"

/-- `getDefaultContent` (smartMerger.js lines 197-225): the default
content provider, switching on the lowercased extension. -/
def getDefaultContent (filename : String) : String :=
  let ext := toLowerStr (extname filename)
  let base := toLowerStr (basenameMinusExt filename ext)
  if ext = ".js" then
    if containsStr base "config" then "// Configuration file\n" else "// JavaScript file\n"
  else if ext = ".ts" then
    if containsStr base "config" then "// TypeScript configuration\n" else "// TypeScript file\n"
  else if ext = ".jsx" ∨ ext = ".tsx" then getReactBoilerplate filename
  else if ext = ".css" then "/* Stylesheet */\n"
  else if ext = ".scss" ∨ ext = ".sass" then "// Sass stylesheet\n"
  else if ext = ".md" then "# " ++ capitalize base ++ "\n\nContent goes here...\n"
  else if ext = ".json" then
    if base = "package" then "\x7b\x7d" else "\x7b\n  \n\x7d\n"
  else if ext = ".env" then "# Environment variables\n"
  else if ext = ".gitignore" then getGitignoreTemplate
  else ""

/-- The executor's content test at a path:
`existingContent && existingContent.trim().length > 0` after
`getFileContent` (handleFile, smartMerger.js lines 133-134). -/
def hasContentAt (fs : FS) (p : Path) : Bool :=
  match getFileContent fs p with
  | some c => decide (trimStr c ≠ "")
  | none => false

/-- `handleFile` (smartMerger.js lines 114-164): the per-file decision.
In dirs-only mode nothing happens (and no counter is touched); then the
critical check, then the content checks; writes use the default content
provider. -/
def handleFile (ctx : MergeCtx) (node : Node) (targetPath : Path) (ex : Bool)
    (st : FS × Stats) : FS × Stats :=
  let fs := st.1
  let stats := st.2
  if ctx.dirsOnly then (fs, stats)
  else if ctx.skipCritical && ex && isCriticalFile node.name then
    (fs, incPreservedFiles stats)
  else if ex then
    if ctx.preserveContent && hasContentAt fs targetPath then
      (fs, incPreservedFiles stats)
    else if !(hasContentAt fs targetPath) then
      (fsWrite fs targetPath (FSEntry.file (getDefaultContent node.name)),
        incCreatedFiles stats)
    else (fs, incPreservedFiles stats)
  else
    (fsWrite fs targetPath (FSEntry.file (getDefaultContent node.name)),
      incCreatedFiles stats)

/-- The path resolution of `processMerge` (smartMerger.js lines 56-67):
an explicit `targetPath` is joined under the current directory; otherwise
`<dir>/<name>`, except that a folder whose name equals the basename of
the current directory is collapsed onto that directory. -/
def finalPathFor (node : Node) (targetDir : Path) : Path :=
  match node.targetPath with
  | some tp => targetDir ++ tp
  | none =>
      if targetDir.getLast? = some node.name ∧ node.type = NodeType.folder then
        targetDir
      else targetDir ++ [node.name]

/-- `processMerge` (smartMerger.js lines 52-77) together with the folder
handler: the walk over the node list, threading the filesystem and the
stats. The body of `handleFolder` (lines 79-112) is inlined in the
folder arm because the two functions are mutually recursive in the
source; `processMerge_cons_folder` below recovers the source's
call shape against the separate `handleFolder` definition. -/
def processMerge (ctx : MergeCtx) : List Node → Path → FS × Stats → FS × Stats
  | [], _, st => st
  | Node.mk name NodeType.folder children tp :: rest, targetDir, st =>
      let finalPath := finalPathFor (Node.mk name NodeType.folder children tp) targetDir
      let ex := fsExists st.1 finalPath
      let st1 :=
        if isSensitiveFolder name then
          if !ex then (st.1, incSkippedFolders st.2) else (st.1, incPreservedFolders st.2)
        else
          let st' := if !ex then (fsWrite st.1 finalPath FSEntry.dir, incCreatedFolders st.2)
                     else (st.1, incPreservedFolders st.2)
          if children.length > 0 then processMerge ctx children finalPath st' else st'
      processMerge ctx rest targetDir st1
  | Node.mk name NodeType.file children tp :: rest, targetDir, st =>
      let finalPath := finalPathFor (Node.mk name NodeType.file children tp) targetDir
      let ex := fsExists st.1 finalPath
      processMerge ctx rest targetDir
        (handleFile ctx (Node.mk name NodeType.file children tp) finalPath ex st)
termination_by l _ _ => sizeOf l
decreasing_by all_goals (simp_wf; try omega)

/-- `handleFolder` (smartMerger.js lines 79-112): sensitive folders are
skipped (absent) or preserved (present) without recursion; otherwise the
folder is created or preserved and the children are walked beneath it. -/
def handleFolder (ctx : MergeCtx) (node : Node) (targetPath : Path) (ex : Bool)
    (st : FS × Stats) : FS × Stats :=
  match node with
  | Node.mk name _ children _ =>
      if isSensitiveFolder name then
        if !ex then (st.1, incSkippedFolders st.2) else (st.1, incPreservedFolders st.2)
      else
        let st' := if !ex then (fsWrite st.1 targetPath FSEntry.dir, incCreatedFolders st.2)
                   else (st.1, incPreservedFolders st.2)
        if children.length > 0 then processMerge ctx children targetPath st' else st'

/-- The project-info record `smartMerge` builds from its options
(`{ type: projectType, isNested }`). -/
structure ProjectInfo where
  type : String
  isNested : Bool
deriving Repr

namespace StructureValidatorESM

/-- The `"folder"` / `"file"` string tag used in dedupe keys. -/
def typeTag : NodeType → String
  | NodeType.folder => "folder"
  | NodeType.file => "file"

/-- `removeDuplicateStructure` (structureValidator.js): filters nodes by
a `type:name` key collected in one `seen` set shared across the whole
recursion, deduplicating children in place before moving to the next
sibling. -/
def dedupe : List String → List Node → List String × List Node
  | seen, [] => (seen, [])
  | seen, Node.mk name ty children tp :: rest =>
      let key := typeTag ty ++ ":" ++ name
      if seen.contains key then dedupe seen rest
      else
        let stepChildren :=
          if children.length > 0 then dedupe (key :: seen) children
          else (key :: seen, children)
        let stepRest := dedupe stepChildren.1 rest
        (stepRest.1, Node.mk name ty stepChildren.2 tp :: stepRest.2)
termination_by _ l => sizeOf l
decreasing_by all_goals (simp_wf; try omega)

def removeDuplicateStructure (tree : List Node) : List Node :=
  (dedupe [] tree).2

/-- `adjustFrontendStructure` (structureValidator.js): a root `src`
folder is pinned to `targetPath = "src"` when `src` exists on disk. -/
def adjustFrontendStructure (fs : FS) (basePath : Path) (tree : List Node) : List Node :=
  tree.map fun node =>
    match node with
    | Node.mk name NodeType.folder ch tp =>
        if name = "src" ∧ fsExists fs (basePath ++ ["src"]) then
          Node.mk name NodeType.folder ch (some ["src"])
        else Node.mk name NodeType.folder ch tp
    | n => n

/-- `adjustBackendStructure` (structureValidator.js). -/
def adjustBackendStructure (fs : FS) (basePath : Path) (tree : List Node) : List Node :=
  tree.map fun node =>
    match node with
    | Node.mk name NodeType.folder ch tp =>
        if name = "api" ∧ fsExists fs (basePath ++ ["api"]) then
          Node.mk name NodeType.folder ch (some ["api"])
        else Node.mk name NodeType.folder ch tp
    | n => n

/-- `adjustNestJSStructure` (structureValidator.js). -/
def adjustNestJSStructure (tree : List Node) : List Node :=
  tree.map fun node =>
    match node with
    | Node.mk name NodeType.folder ch tp =>
        if name = "src" then Node.mk name NodeType.folder ch (some ["src"])
        else Node.mk name NodeType.folder ch tp
    | n => n

/-- `adjustExpressStructure` (structureValidator.js). -/
def adjustExpressStructure (tree : List Node) : List Node :=
  tree.map fun node =>
    match node with
    | Node.mk name NodeType.folder ch tp =>
        if name = "routes" then Node.mk name NodeType.folder ch (some ["routes"])
        else Node.mk name NodeType.folder ch tp
    | n => n

/-- `adjustDjangoStructure` (structureValidator.js). -/
def adjustDjangoStructure (tree : List Node) : List Node :=
  tree.map fun node =>
    match node with
    | Node.mk name NodeType.folder ch tp =>
        if name = "apps" then Node.mk name NodeType.folder ch (some ["apps"])
        else Node.mk name NodeType.folder ch tp
    | n => n

/-- `adjustSpringBootStructure` (structureValidator.js). -/
def adjustSpringBootStructure (tree : List Node) : List Node :=
  tree.map fun node =>
    match node with
    | Node.mk name NodeType.folder ch tp =>
        if name = "src" then Node.mk name NodeType.folder ch (some ["src", "main", "java"])
        else Node.mk name NodeType.folder ch tp
    | n => n

/-- `adjustForExistingStructure` (structureValidator.js): dispatch on the
project-type tag; unknown types leave the tree unchanged. -/
def adjustForExistingStructure (fs : FS) (basePath : Path) (projectType : String)
    (tree : List Node) : List Node :=
  if projectType = "frontend" then adjustFrontendStructure fs basePath tree
  else if projectType = "backend" then adjustBackendStructure fs basePath tree
  else if projectType = "nestjs" then adjustNestJSStructure tree
  else if projectType = "express" then adjustExpressStructure tree
  else if projectType = "django" then adjustDjangoStructure tree
  else if projectType = "springboot" then adjustSpringBootStructure tree
  else tree

/-- `isFrontendProject` (structureValidator.js, folder-name test). -/
def isFrontendProject (folderName : String) : Bool :=
  (["src", "components", "public"] : List String).contains (toLowerStr folderName)

/-- `isBackendProject` (structureValidator.js, folder-name test). -/
def isBackendProject (folderName : String) : Bool :=
  (["api", "controllers", "models", "routes"] : List String).contains (toLowerStr folderName)

/-- `validateAgainstProjectType` (structureValidator.js). -/
def validateAgainstProjectType (projectType : String) (tree : List Node) : List Node :=
  if projectType = "frontend" then
    tree.filter fun n => if n.type = NodeType.folder then isFrontendProject n.name else true
  else if projectType = "backend" then
    tree.filter fun n => if n.type = NodeType.folder then isBackendProject n.name else true
  else tree

/-- `validateAndAdjustStructure` (structureValidator.js): dedupe, then
path adjustment, then project-type filter, with
`basePath = projectInfo.basePath || targetDir` (the info record built by
`smartMerge` has no base path, so the target directory is used). -/
def validateAndAdjustStructure (fs : FS) (parsedTree : List Node)
    (projectInfo : ProjectInfo) (targetDir : Path) : List Node :=
  let projectType := projectInfo.type
  let basePath := targetDir
  let cleaned := removeDuplicateStructure parsedTree
  let adjusted := adjustForExistingStructure fs basePath projectType cleaned
  validateAgainstProjectType projectType adjusted

end StructureValidatorESM

/-- `smartMerge` (smartMerger.js lines 10-50): adjust the tree through
the StructureValidator, then walk it with `processMerge` starting from
zeroed stats. The returned pair is the final filesystem and stats. -/
def smartMerge (tree : List Node) (targetDir : Path) (options : MergeOptions)
    (fs : FS) : FS × Stats :=
  let projectInfo : ProjectInfo := ⟨options.projectType, options.isNested⟩
  let adjustedTree := StructureValidatorESM.validateAndAdjustStructure fs tree projectInfo targetDir
  let ctx : MergeCtx :=
    ⟨options.preserveContent, options.skipCritical, options.dirsOnly, options.projectType⟩
  processMerge ctx adjustedTree targetDir (fs, Stats.zero)

/-- `validateTargetDirectory` (projectDetector.js lines 255-279): the
safety precondition on the merge root. Paths are already resolved in
this model; being strictly inside a dangerous directory is the
`startsWith(resolve(dangerous) + path.sep)` test (for the filesystem
root `/` that string is `//`, which no normalized path starts with, so
only exact equality rejects there, as in the source). The source throws;
modelled as `Except`. -/
def validateTargetDirectory (targetDir : Path) : Except String Bool :=
  let dangerousPaths : List Path :=
    [[], ["usr"], ["bin"], ["etc"], ["var"], ["sys"], ["proc"],
     ["C:"], ["C:", "Windows"], ["C:", "Program Files"]]
  let strictlyInside : Path → Bool := fun d =>
    match d with
    | [] => false
    | _ => decide (targetDir.take d.length = d) && decide (d.length < targetDir.length)
  if dangerousPaths.any (fun d => decide (targetDir = d) || strictlyInside d) then
    Except.error "Cannot operate on system directory"
  else Except.ok true

/-- No line terminator occurs (so a `.`-only regex body can span it all). -/
def noLineTerm (l : List Char) : Bool :=
  l.all fun c => decide (c ≠ '\n') && decide (c ≠ '\r')

/-- Regex `^\/\*[\s\S]*\*\/$`: the whole string is one block comment. -/
def matchOnlyBlockComment (s : String) : Bool :=
  decide (strLen s ≥ 4) && strStarts s "/*" && strEnds s "*/"

/-- Regex `^\/\/.*$` (no multiline flag): one line comment, no terminator. -/
def matchOnlyLineComment (s : String) : Bool :=
  strStarts s "//" && noLineTerm s.toList

/-- Regex `^#.*$`: one shell comment, no terminator. -/
def matchOnlyHashComment (s : String) : Bool :=
  strStarts s "#" && noLineTerm s.toList

/-- Regex `^<!--[\s\S]*-->$`: the whole string is one HTML comment. -/
def matchOnlyHtmlComment (s : String) : Bool :=
  decide (strLen s ≥ 7) && strStarts s "<!--" && strEnds s "-->"

/-- An opening delimiter, whitespace, and the closing delimiter. -/
def matchDelimWs (openC closeC : Char) (s : String) : Bool :=
  match s.toList with
  | [] => false
  | c :: rest =>
      decide (c = openC) &&
        (match rest.getLast? with
         | some d => decide (d = closeC) && rest.dropLast.all isWsChar
         | none => false)

/-- Regex `^\{\s*\}$`: an empty object literal. -/
def matchEmptyObject (s : String) : Bool :=
  matchDelimWs '\x7b' '\x7d' s

/-- Regex `^\[\s*\]$`: an empty array literal. -/
def matchEmptyArray (s : String) : Bool :=
  matchDelimWs '[' ']' s

/-- Consume an exact literal from the front, `none` when it mismatches. -/
def dropLit : List Char → List Char → Option (List Char)
  | [], l => some l
  | _ :: _, [] => none
  | p :: ps, c :: cs => if p = c then dropLit ps cs else none

/-- Consume at least one whitespace character (`\s+`). -/
def dropWsPlus (l : List Char) : Option (List Char) :=
  let l' := l.dropWhile isWsChar
  if l'.length = l.length then none else some l'

/-- Regex `^export\s+default\s+\{\s*\}$`: an empty default export. -/
def matchEmptyExport (s : String) : Bool :=
  let r1 := (dropLit "export".toList s.toList).bind dropWsPlus
  let r2 := (r1.bind (dropLit "default".toList)).bind dropWsPlus
  let r3 := (r2.bind (dropLit ['\x7b'])).map (List.dropWhile isWsChar)
  decide (r3.bind (dropLit ['\x7d']) = some [])

/-- Regex `^module\.exports\s*=\s*\{\s*\}$`: an empty module export. -/
def matchEmptyModuleExport (s : String) : Bool :=
  let r1 := (dropLit "module.exports".toList s.toList).map (List.dropWhile isWsChar)
  let r2 := (r1.bind (dropLit ['='])).map (List.dropWhile isWsChar)
  let r3 := (r2.bind (dropLit ['\x7b'])).map (List.dropWhile isWsChar)
  decide (r3.bind (dropLit ['\x7d']) = some [])

namespace FileUtils

/-- Position just after the first `*​/` in the list, if any. -/
def findBlockEnd : List Char → Option (List Char)
  | [] => none
  | '*' :: '/' :: rest => some rest
  | _ :: rest => findBlockEnd rest

/-- One global pass of `replace(/\/\*[\s\S]*?\*\//g, "")`: each `/*` with
a later closing `*​/` is removed together with the (shortest) body; an
unclosed `/*` matches nothing and is kept. The fuel is an upper bound on
the number of steps; each step consumes at least one character, so the
caller's `length + 1` always suffices. -/
def sbAux : Nat → List Char → List Char
  | 0, l => l
  | _ + 1, [] => []
  | fuel + 1, '/' :: '*' :: rest =>
      match findBlockEnd rest with
      | some rest' => sbAux fuel rest'
      | none => '/' :: '*' :: rest
  | fuel + 1, c :: rest => c :: sbAux fuel rest

def stripBlockComments (s : String) : String :=
  String.mk (sbAux (s.toList.length + 1) s.toList)

/-- `replace(/\/\/.*$/gm, "")`: from each `//` on, characters are dropped
up to (but not including) the next line terminator. The flag tracks
whether we are inside a match being dropped. -/
def slAux : List Char → Bool → List Char
  | [], _ => []
  | c :: rest, true =>
      if c = '\n' ∨ c = '\r' then c :: slAux rest false else slAux rest true
  | '/' :: '/' :: rest, false => slAux rest true
  | c :: rest, false => c :: slAux rest false

def stripLineComments (s : String) : String :=
  String.mk (slAux s.toList false)

/-- Drop `.*` up to the next line terminator (exclusive). -/
def dropToLineEnd : List Char → List Char
  | [] => []
  | c :: rest => if c = '\n' ∨ c = '\r' then c :: rest else dropToLineEnd rest

/-- `replace(/^\s*#.*$/gm, "")`: at a line-start position, a greedy
whitespace run (which may span line terminators) followed by `#` starts
a match that extends to the end of that line. The boolean is the
multiline `^` state; fuel as in `sbAux`. -/
def shAux : Nat → List Char → Bool → List Char
  | 0, l, _ => l
  | _ + 1, [], _ => []
  | fuel + 1, c :: rest, atStart =>
      if atStart then
        match (c :: rest).dropWhile isWsChar with
        | '#' :: t2 => shAux fuel (dropToLineEnd t2) false
        | _ => c :: shAux fuel rest (decide (c = '\n') || decide (c = '\r'))
      else c :: shAux fuel rest (decide (c = '\n') || decide (c = '\r'))

def stripHashComments (s : String) : String :=
  String.mk (shAux (s.toList.length + 1) s.toList true)

/-- Position just after the first `-->` in the list, if any. -/
def findHtmlEnd : List Char → Option (List Char)
  | [] => none
  | '-' :: '-' :: '>' :: rest => some rest
  | _ :: rest => findHtmlEnd rest

/-- One global pass of `replace(/<!--[\s\S]*?-->/g, "")`; fuel as in
`sbAux`. -/
def htAux : Nat → List Char → List Char
  | 0, l => l
  | _ + 1, [] => []
  | fuel + 1, '<' :: '!' :: '-' :: '-' :: rest =>
      match findHtmlEnd rest with
      | some rest' => htAux fuel rest'
      | none => '<' :: '!' :: '-' :: '-' :: rest
  | fuel + 1, c :: rest => c :: htAux fuel rest

def stripHtmlComments (s : String) : String :=
  String.mk (htAux (s.toList.length + 1) s.toList)

/-- `FileUtils.isContentMeaningful` (fileUtils.js lines 305-331): trim,
strip block, line, shell and HTML comments, and require that something
remains which is not one of the four empty-idiom shapes. -/
def isContentMeaningful (content : String) : Bool :=
  let trimmed := trimStr content
  if trimmed = "" then false
  else
    let withoutComments :=
      trimStr (stripHtmlComments (stripHashComments (stripLineComments
        (stripBlockComments trimmed))))
    if withoutComments = "" then false
    else
      !(matchEmptyObject withoutComments || matchEmptyArray withoutComments ||
        matchEmptyExport withoutComments || matchEmptyModuleExport withoutComments)

end FileUtils

namespace StructureValidator

/-- `StructureValidator.fileHasContent` (projectDetector.js lines
886-910): read the file, trim, and test the trimmed whole content
against the placeholder patterns; any read error (missing path or
directory) is treated as "has content". -/
def fileHasContent (fs : FS) (p : Path) : Bool :=
  match fsRead fs p with
  | some (FSEntry.file content) =>
      let trimmed := trimStr content
      if trimmed = "" then false
      else
        !(matchOnlyBlockComment trimmed || matchOnlyLineComment trimmed ||
          matchOnlyHashComment trimmed || matchOnlyHtmlComment trimmed ||
          matchEmptyObject trimmed || matchEmptyArray trimmed ||
          matchEmptyExport trimmed || matchEmptyModuleExport trimmed)
  | _ => true

/-- The universal critical list of `StructureValidator.isCriticalFile`
(projectDetector.js lines 915-940), casing as in the source. -/
def universalCritical : List String :=
  ["package.json", "package-lock.json", "yarn.lock", "pnpm-lock.yaml",
   ".env", ".env.local", ".env.production", ".env.development",
   ".gitignore", ".gitattributes", "README.md", "LICENSE",
   "tsconfig.json", "jsconfig.json"]

/-- The per-project-type critical extension table. -/
def projectSpecificCritical (projectType : String) : List String :=
  if projectType = "vite-frontend" then
    ["vite.config.js", "vite.config.ts", "index.html"]
  else if projectType = "next-frontend" then
    ["next.config.js", "next.config.ts", "pages/_app.js", "pages/_document.js"]
  else if projectType = "angular-frontend" then
    ["angular.json", "main.ts", "polyfills.ts"]
  else if projectType = "nestjs-backend" then
    ["nest-cli.json", "main.ts", "app.module.ts"]
  else if projectType = "express-backend" then
    ["server.js", "app.js", "index.js"]
  else if projectType = "django-backend" then
    ["manage.py", "settings.py", "urls.py", "wsgi.py"]
  else if projectType = "flask-backend" then
    ["app.py", "run.py", "config.py"]
  else if projectType = "spring-backend" then
    ["pom.xml", "build.gradle", "application.properties"]
  else if projectType = "laravel-backend" then
    ["artisan", "composer.json", ".env.example"]
  else if projectType = "rails-backend" then
    ["Gemfile", "config.ru", "application.rb"]
  else []

/-- `StructureValidator.isCriticalFile` (projectDetector.js lines
915-940): lowercased name against the universal plus project-specific
lists (whose non-lowercase entries therefore never match). -/
def isCriticalFile (projectType : String) (filename : String) : Bool :=
  universalCritical.contains (toLowerStr filename) ||
    (projectSpecificCritical projectType).contains (toLowerStr filename)

/-- The name a direct child entry of `p` contributes to `readdirSync`. -/
def childName (p : Path) (q : Path) : Option String :=
  match q.getLast? with
  | some n => if q.dropLast = p then some n else none
  | none => none

/-- `fs.readdirSync`: names of the direct children of `p`. -/
def readdir (fs : FS) (p : Path) : List String :=
  (fs.map fun e => e.1).filterMap (childName p)

/-- `StructureValidator.folderHasSignificantContent` (projectDetector.js
lines 849-881): some visible (or `.js`/`.ts`-named hidden) entry is a
file with non-blank content, or a subdirectory recursively satisfying
the same. The fuel bounds the recursion depth; `fsFuel` below exceeds
the longest path in the map, so it never runs out on reachable entries. -/
def folderHasSignificantContent (fs : FS) : Nat → Path → Bool
  | 0, _ => false
  | fuel + 1, folderPath =>
      let items := readdir fs folderPath
      if items.length = 0 then false
      else
        decide ((items.filter fun item =>
          if strStarts item "." && !(strEnds item ".js") && !(strEnds item ".ts") then
            false
          else
            match fsRead fs (folderPath ++ [item]) with
            | some (FSEntry.file content) => decide (trimStr content ≠ "")
            | some FSEntry.dir => folderHasSignificantContent fs fuel (folderPath ++ [item])
            | none => false).length > 0)

/-- A recursion bound exceeding every path length in the map. -/
def fsFuel (fs : FS) : Nat :=
  fs.foldr (fun e acc => max e.1.length acc) 0 + 1

/-- The filter phase of `StructureValidator.removeDuplicateStructure`
(projectDetector.js lines 594-618): folders always pass; a file is
dropped when its on-disk counterpart exists and is critical or has
content. -/
def keepNode (fs : FS) (projectType : String) (basePath : Path) (node : Node) : Bool :=
  let targetPath := basePath ++ [node.name]
  if node.type = NodeType.folder then true
  else if fsExists fs targetPath then
    if isCriticalFile projectType node.name then false
    else if fileHasContent fs targetPath then false
    else true
  else true

mutual
/-- `StructureValidator.removeDuplicateStructure` (projectDetector.js
lines 568-619): the map phase followed by the conflict filter. -/
def removeDuplicateStructure (fs : FS) (projectType : String) (basePath : Path)
    (tree : List Node) : List Node :=
  (cleanMap fs projectType basePath tree).filter (keepNode fs projectType basePath)
termination_by (sizeOf tree, 1)

/-- The map phase of `StructureValidator.removeDuplicateStructure`
(projectDetector.js lines 571-593): an existing folder with significant
content has its non-empty children replaced by the full recursive
`removeDuplicateStructure` (map and conflict filter) under its own path;
all other nodes pass through unchanged. -/
def cleanMap (fs : FS) (projectType : String) : Path → List Node → List Node
  | _, [] => []
  | basePath, Node.mk name ty children tp :: rest =>
      let node' :=
        if ty = NodeType.folder ∧ fsExists fs (basePath ++ [name]) ∧
            folderHasSignificantContent fs (fsFuel fs) (basePath ++ [name]) then
          Node.mk name ty
            (if children.length > 0 then
              removeDuplicateStructure fs projectType (basePath ++ [name]) children
             else children) tp
        else Node.mk name ty children tp
      node' :: cleanMap fs projectType basePath rest
termination_by _ l => (sizeOf l, 0)
end

end StructureValidator

/-- Readiness of one file node for a repeated visit: its resolved path
exists, and either the critical guard will preserve it or it is a file
whose content is non-blank (so the content branch preserves it). -/
def fileReadyAt (ctx : MergeCtx) (fs : FS) (name : String) (p : Path) : Bool :=
  fsExists fs p &&
    ((ctx.skipCritical && isCriticalFile name) ||
      (match fsRead fs p with
       | some (FSEntry.file c) => decide (trimStr c ≠ "")
       | _ => false))

/-- Readiness of a tree against a filesystem: visiting it again resolves
every node to a preserve or skip, with no create and no write. -/
def treeReady (ctx : MergeCtx) (fs : FS) : List Node → Path → Bool
  | [], _ => true
  | Node.mk name NodeType.folder children tp :: rest, dir =>
      (if isSensitiveFolder name then true
       else
         fsExists fs (finalPathFor (Node.mk name NodeType.folder children tp) dir) &&
           treeReady ctx fs children
             (finalPathFor (Node.mk name NodeType.folder children tp) dir)) &&
        treeReady ctx fs rest dir
  | Node.mk name NodeType.file children tp :: rest, dir =>
      fileReadyAt ctx fs name (finalPathFor (Node.mk name NodeType.file children tp) dir) &&
        treeReady ctx fs rest dir
termination_by l _ => sizeOf l
decreasing_by all_goals (simp_wf; try omega)

/-- Every file node of the tree has a provider default whose trim is
non-blank (rules out the blank defaults of unknown extensions). -/
def defaultsNonBlank : List Node → Bool
  | [] => true
  | Node.mk name NodeType.file _ _ :: rest =>
      decide (trimStr (getDefaultContent name) ≠ "") && defaultsNonBlank rest
  | Node.mk _ NodeType.folder children _ :: rest =>
      defaultsNonBlank children && defaultsNonBlank rest
termination_by l => sizeOf l
decreasing_by all_goals (simp_wf; try omega)

theorem fsRead_write_self (fs : FS) (p : Path) (e : FSEntry) :
    fsRead (fsWrite fs p e) p = some e := by
  simp [fsRead, fsWrite]

theorem find?_filter_ne (fs : FS) (p q : Path) (h : q ≠ p) :
    (fs.filter (fun x => decide (x.1 ≠ p))).find? (fun e => decide (e.1 = q)) =
      fs.find? (fun e => decide (e.1 = q)) := by
  induction fs with
  | nil => rfl
  | cons a as ih =>
      by_cases hap : a.1 = p
      · rw [List.filter_cons_of_neg (by simpa using hap), ih,
          List.find?_cons_of_neg _ (by simpa [hap] using fun hc => h hc.symm)]
      · rw [List.filter_cons_of_pos (by simpa using hap)]
        by_cases haq : a.1 = q
        · rw [List.find?_cons_of_pos _ (by simpa using haq),
            List.find?_cons_of_pos _ (by simpa using haq)]
        · rw [List.find?_cons_of_neg _ (by simpa using haq),
            List.find?_cons_of_neg _ (by simpa using haq), ih]

theorem fsRead_write_ne (fs : FS) (p q : Path) (e : FSEntry) (h : q ≠ p) :
    fsRead (fsWrite fs p e) q = fsRead fs q := by
  unfold fsRead fsWrite
  rw [List.find?_cons_of_neg _ (by simpa using fun hc => h hc.symm),
    find?_filter_ne fs p q h]

theorem processMerge_nil (ctx : MergeCtx) (dir : Path) (st : FS × Stats) :
    processMerge ctx [] dir st = st := by
  rw [processMerge]

theorem processMerge_cons_folder (ctx : MergeCtx) (name : String)
    (children : List Node) (tp : Option Path) (rest : List Node)
    (targetDir : Path) (st : FS × Stats) :
    processMerge ctx (Node.mk name NodeType.folder children tp :: rest) targetDir st =
      processMerge ctx rest targetDir
        (handleFolder ctx (Node.mk name NodeType.folder children tp)
          (finalPathFor (Node.mk name NodeType.folder children tp) targetDir)
          (fsExists st.1 (finalPathFor (Node.mk name NodeType.folder children tp) targetDir))
          st) := by
  rw [processMerge, handleFolder]

theorem processMerge_cons_file (ctx : MergeCtx) (name : String)
    (children : List Node) (tp : Option Path) (rest : List Node)
    (targetDir : Path) (st : FS × Stats) :
    processMerge ctx (Node.mk name NodeType.file children tp :: rest) targetDir st =
      processMerge ctx rest targetDir
        (handleFile ctx (Node.mk name NodeType.file children tp)
          (finalPathFor (Node.mk name NodeType.file children tp) targetDir)
          (fsExists st.1 (finalPathFor (Node.mk name NodeType.file children tp) targetDir))
          st) := by
  rw [processMerge]

theorem handleFile_preserves (ctx : MergeCtx) (node : Node) (tp : Path)
    (fs : FS) (stats : Stats) (p : Path) (content : String)
    (hread : fsRead fs p = some (FSEntry.file content)) (hne : trimStr content ≠ "") :
    fsRead (handleFile ctx node tp (fsExists fs tp) (fs, stats)).1 p =
      some (FSEntry.file content) := by
  by_cases hpq : tp = p
  · subst hpq
    have hex : fsExists fs tp = true := by simp [fsExists, hread]
    have hc : hasContentAt fs tp = true := by
      simp [hasContentAt, getFileContent, hread, hne]
    unfold handleFile
    by_cases hd : ctx.dirsOnly <;>
      by_cases hcrit : ctx.skipCritical && isCriticalFile node.name <;>
        by_cases hp : ctx.preserveContent <;>
          simp [hd, hcrit, hp, hex, hc, hread]
  · have hne2 : p ≠ tp := fun h => hpq h.symm
    have hW : ∀ e : FSEntry, fsRead (fsWrite fs tp e) p = some (FSEntry.file content) := by
      intro e; rw [fsRead_write_ne _ _ _ _ hne2]; exact hread
    unfold handleFile
    dsimp only
    repeat' split
    all_goals first | simpa using hread | simpa using hW _

theorem processMerge_preserves (ctx : MergeCtx) :
    ∀ (tree : List Node) (dir : Path) (fs : FS) (stats : Stats)
      (p : Path) (content : String),
      fsRead fs p = some (FSEntry.file content) → trimStr content ≠ "" →
      fsRead (processMerge ctx tree dir (fs, stats)).1 p = some (FSEntry.file content)
  | [], _, _, _, _, _, hread, _ => by
      simpa [processMerge_nil] using hread
  | Node.mk name NodeType.folder children tp :: rest, dir, fs, stats, p, content,
      hread, hne => by
      rw [processMerge_cons_folder]
      have hstep :
          ∀ st1 : FS × Stats,
            st1 = handleFolder ctx (Node.mk name NodeType.folder children tp)
              (finalPathFor (Node.mk name NodeType.folder children tp) dir)
              (fsExists fs (finalPathFor (Node.mk name NodeType.folder children tp) dir))
              (fs, stats) →
            fsRead st1.1 p = some (FSEntry.file content) := by
        intro st1 hst1
        unfold handleFolder at hst1
        by_cases hs : isSensitiveFolder name
        · by_cases hex : fsExists fs (finalPathFor (Node.mk name NodeType.folder children tp) dir) <;>
            simp [hs, hex, hst1, hread]
        · by_cases hex : fsExists fs (finalPathFor (Node.mk name NodeType.folder children tp) dir)
          · simp only [hs, hex, if_true, if_false, Bool.not_true, ite_false] at hst1
            by_cases hch : children.length > 0
            · simp only [hch, if_true] at hst1
              subst hst1
              exact processMerge_preserves ctx children _ fs _ p content hread hne
            · simp only [hch, if_false] at hst1
              simp [hst1, hread]
          · have hfp : (finalPathFor (Node.mk name NodeType.folder children tp) dir) ≠ p := by
              intro h
              rw [h] at hex
              simp [fsExists, hread] at hex
            have hne2 : p ≠ finalPathFor (Node.mk name NodeType.folder children tp) dir :=
              fun h => hfp h.symm
            simp only [hs, hex, Bool.not_false, if_true, if_false, ite_true] at hst1
            have hread' :
                fsRead (fsWrite fs (finalPathFor (Node.mk name NodeType.folder children tp) dir)
                  FSEntry.dir) p = some (FSEntry.file content) := by
              rw [fsRead_write_ne _ _ _ _ hne2]; exact hread
            by_cases hch : children.length > 0
            · simp only [hch, if_true] at hst1
              subst hst1
              exact processMerge_preserves ctx children _ _ _ p content hread' hne
            · simp only [hch, if_false] at hst1
              simp [hst1, hread']
      have h1 := hstep _ rfl
      obtain ⟨fs1, s1, heq⟩ :
          ∃ a b, handleFolder ctx (Node.mk name NodeType.folder children tp)
            (finalPathFor (Node.mk name NodeType.folder children tp) dir)
            (fsExists fs (finalPathFor (Node.mk name NodeType.folder children tp) dir))
            (fs, stats) = (a, b) := ⟨_, _, rfl⟩
      rw [heq] at h1 ⊢
      exact processMerge_preserves ctx rest dir fs1 _ p content h1 hne
  | Node.mk name NodeType.file children tp :: rest, dir, fs, stats, p, content,
      hread, hne => by
      rw [processMerge_cons_file]
      have h1 := handleFile_preserves ctx (Node.mk name NodeType.file children tp)
        (finalPathFor (Node.mk name NodeType.file children tp) dir) fs stats p content hread hne
      obtain ⟨fs1, s1, heq⟩ :
          ∃ a b, handleFile ctx (Node.mk name NodeType.file children tp)
            (finalPathFor (Node.mk name NodeType.file children tp) dir)
            (fsExists fs (finalPathFor (Node.mk name NodeType.file children tp) dir))
            (fs, stats) = (a, b) := ⟨_, _, rfl⟩
      rw [heq] at h1 ⊢
      exact processMerge_preserves ctx rest dir fs1 _ p content h1 hne
termination_by tree _ _ _ _ _ => sizeOf tree
decreasing_by all_goals (simp_wf; try omega)

theorem fsExists_write (fs : FS) (q p : Path) (e : FSEntry) (h : fsExists fs p = true) :
    fsExists (fsWrite fs q e) p = true := by
  by_cases hpq : p = q
  · subst hpq; simp [fsExists, fsRead_write_self]
  · rw [fsExists, fsRead_write_ne _ _ _ _ hpq]; exact h

theorem handleFile_exists_mono (ctx : MergeCtx) (node : Node) (tp : Path) (ex : Bool)
    (fs : FS) (stats : Stats) (p : Path) (h : fsExists fs p = true) :
    fsExists (handleFile ctx node tp ex (fs, stats)).1 p = true := by
  unfold handleFile
  dsimp only
  repeat' split
  all_goals first | simpa using h | simpa using fsExists_write _ _ _ _ h

theorem processMerge_exists_mono (ctx : MergeCtx) :
    ∀ (tree : List Node) (dir : Path) (fs : FS) (stats : Stats) (p : Path),
      fsExists fs p = true → fsExists (processMerge ctx tree dir (fs, stats)).1 p = true
  | [], _, _, _, _, h => by simpa [processMerge_nil] using h
  | Node.mk name NodeType.folder children tp :: rest, dir, fs, stats, p, h => by
      rw [processMerge_cons_folder]
      have hstep :
          ∀ st1 : FS × Stats,
            st1 = handleFolder ctx (Node.mk name NodeType.folder children tp)
              (finalPathFor (Node.mk name NodeType.folder children tp) dir)
              (fsExists fs (finalPathFor (Node.mk name NodeType.folder children tp) dir))
              (fs, stats) →
            fsExists st1.1 p = true := by
        intro st1 hst1
        unfold handleFolder at hst1
        by_cases hs : isSensitiveFolder name
        · by_cases hex : fsExists fs (finalPathFor (Node.mk name NodeType.folder children tp) dir) <;>
            simp [hs, hex, hst1, h]
        · by_cases hex : fsExists fs (finalPathFor (Node.mk name NodeType.folder children tp) dir) <;>
            by_cases hch : children.length > 0 <;>
              simp only [hs, hex, hch, Bool.not_true, Bool.not_false, if_true, if_false,
                ite_true, ite_false] at hst1 <;> subst hst1
          · exact processMerge_exists_mono ctx children _ fs _ p h
          · simpa using h
          · exact processMerge_exists_mono ctx children _ _ _ p (fsExists_write _ _ _ _ h)
          · simpa using fsExists_write _ _ _ _ h
      have h1 := hstep _ rfl
      obtain ⟨fs1, s1, heq⟩ :
          ∃ a b, handleFolder ctx (Node.mk name NodeType.folder children tp)
            (finalPathFor (Node.mk name NodeType.folder children tp) dir)
            (fsExists fs (finalPathFor (Node.mk name NodeType.folder children tp) dir))
            (fs, stats) = (a, b) := ⟨_, _, rfl⟩
      rw [heq] at h1 ⊢
      exact processMerge_exists_mono ctx rest dir fs1 _ p h1
  | Node.mk name NodeType.file children tp :: rest, dir, fs, stats, p, h => by
      rw [processMerge_cons_file]
      have h1 := handleFile_exists_mono ctx (Node.mk name NodeType.file children tp)
        (finalPathFor (Node.mk name NodeType.file children tp) dir)
        (fsExists fs (finalPathFor (Node.mk name NodeType.file children tp) dir)) fs stats p h
      obtain ⟨fs1, s1, heq⟩ :
          ∃ a b, handleFile ctx (Node.mk name NodeType.file children tp)
            (finalPathFor (Node.mk name NodeType.file children tp) dir)
            (fsExists fs (finalPathFor (Node.mk name NodeType.file children tp) dir))
            (fs, stats) = (a, b) := ⟨_, _, rfl⟩
      rw [heq] at h1 ⊢
      exact processMerge_exists_mono ctx rest dir fs1 _ p h1
termination_by tree _ _ _ _ => sizeOf tree
decreasing_by all_goals (simp_wf; try omega)

theorem meaningful_trim_ne (content : String)
    (h : FileUtils.isContentMeaningful content = true) : trimStr content ≠ "" := by
  intro ht
  simp [FileUtils.isContentMeaningful, ht] at h

/-- C1 — Content preservation: in every merge run, a file whose
pre-merge content is meaningful under the spec's predicate
(`FileUtils.isContentMeaningful`) has exactly the same bytes after
`smartMerge` completes: no CREATE or UPDATE write ever targets it. -/
theorem smartMerge_preserves_meaningful (tree : List Node) (targetDir : Path)
    (options : MergeOptions) (fs : FS) (p : Path) (content : String)
    (hread : fsRead fs p = some (FSEntry.file content))
    (hm : FileUtils.isContentMeaningful content = true) :
    fsRead (smartMerge tree targetDir options fs).1 p = some (FSEntry.file content) := by
  unfold smartMerge
  exact processMerge_preserves _ _ _ _ _ _ _ hread (meaningful_trim_ne content hm)

/-- Witness for C1 at a concrete run: an existing `app.js` containing
`console.log(1);` is byte-identical after merging a tree that contains
that very file. -/
theorem smartMerge_preserves_meaningful_witness :
    fsRead (smartMerge [Node.mk "app.js" NodeType.file [] none] ["proj"] defaultOptions
      [(["proj"], FSEntry.dir), (["proj", "app.js"], FSEntry.file "console.log(1);")]).1
      ["proj", "app.js"] = some (FSEntry.file "console.log(1);") :=
  smartMerge_preserves_meaningful _ _ _ _ _ _ (by decide) (by decide)

/-- C2 — the critical-file set is compared case-sensitively against the
lowercased name, so the entries `README.md`, `LICENSE` and `Dockerfile`
never match: an existing empty `README.md` falls through the critical
guard and is overwritten with the provider's default markdown content,
counted as a created file. -/
theorem critical_readme_overwritten_bug :
    isCriticalFile "README.md" = false ∧ isCriticalFile "LICENSE" = false ∧
      isCriticalFile "readme.md" = false ∧ isCriticalFile "Dockerfile" = false ∧
      handleFile ⟨true, true, false, "unknown"⟩ (Node.mk "README.md" NodeType.file [] none)
          ["README.md"] true ([(["README.md"], FSEntry.file "")], Stats.zero) =
        ([(["README.md"], FSEntry.file "# Readme\n\nContent goes here...\n")],
          ⟨⟨0, 1⟩, ⟨0, 0⟩, ⟨0, 0⟩⟩) := by
  decide

/-- C3 — Sensitive-folder invariant: `handleFolder` on a sensitive
folder never touches the filesystem, counts exactly one skipped folder
when the path is absent and one preserved folder when it exists, and
never recurses into the node's children (the result does not depend on
them). -/
theorem handleFolder_sensitive_invariant (ctx : MergeCtx) (name : String)
    (ty : NodeType) (children : List Node) (tp : Option Path) (targetPath : Path)
    (ex : Bool) (fs : FS) (stats : Stats) (h : isSensitiveFolder name = true) :
    handleFolder ctx (Node.mk name ty children tp) targetPath ex (fs, stats) =
      (fs, if ex then incPreservedFolders stats else incSkippedFolders stats) := by
  unfold handleFolder
  cases ex <;> simp [h]

/-- Witness for C3: an absent `node_modules` with non-empty children is
skipped without creating anything, and a present one is preserved. -/
theorem handleFolder_sensitive_invariant_witness :
    handleFolder ⟨true, true, false, "unknown"⟩
        (Node.mk "node_modules" NodeType.folder [Node.mk "x.js" NodeType.file [] none] none)
        ["proj", "node_modules"] false ([(["proj"], FSEntry.dir)], Stats.zero) =
      ([(["proj"], FSEntry.dir)], ⟨⟨0, 0⟩, ⟨0, 0⟩, ⟨1, 0⟩⟩) := by
  rw [handleFolder_sensitive_invariant _ _ _ _ _ _ _ _ _ (by decide)]
  decide

/-- C5 counterexample — the executor and the adjuster do not share one
meaningful-content predicate: on a file containing only a block comment
the executor's content test says "has content" and `handleFile`
preserves the file, while the adjuster's `fileHasContent` and the
comment-stripping `FileUtils.isContentMeaningful` both classify it as
not meaningful. -/
theorem meaningful_predicate_not_shared :
    hasContentAt [(["notes.js"], FSEntry.file "/* notes */")] ["notes.js"] = true ∧
      handleFile ⟨true, true, false, "unknown"⟩ (Node.mk "notes.js" NodeType.file [] none)
          ["notes.js"] true ([(["notes.js"], FSEntry.file "/* notes */")], Stats.zero) =
        ([(["notes.js"], FSEntry.file "/* notes */")], ⟨⟨0, 0⟩, ⟨0, 1⟩, ⟨0, 0⟩⟩) ∧
      StructureValidator.fileHasContent [(["notes.js"], FSEntry.file "/* notes */")]
          ["notes.js"] = false ∧
      FileUtils.isContentMeaningful "/* notes */" = false := by
  decide

/-- C5 amended — the two components use different predicates: for an
existing non-critical file, the executor preserves it iff its raw
content is non-blank after trimming (no comment stripping), while the
adjuster's `fileHasContent` tests the trimmed content against its
whole-string placeholder patterns; the comment-stripping predicate
exists as `FileUtils.isContentMeaningful` but neither decision uses it. -/
theorem content_predicates_amended (ctx : MergeCtx) (node : Node) (p : Path)
    (fs : FS) (stats : Stats) (content : String)
    (h1 : ctx.dirsOnly = false)
    (h2 : (ctx.skipCritical && isCriticalFile node.name) = false)
    (h3 : fsRead fs p = some (FSEntry.file content)) :
    (handleFile ctx node p true (fs, stats) = (fs, incPreservedFiles stats) ↔
      trimStr content ≠ "") ∧
    StructureValidator.fileHasContent fs p =
      (decide (trimStr content ≠ "") &&
        !(matchOnlyBlockComment (trimStr content) || matchOnlyLineComment (trimStr content) ||
          matchOnlyHashComment (trimStr content) || matchOnlyHtmlComment (trimStr content) ||
          matchEmptyObject (trimStr content) || matchEmptyArray (trimStr content) ||
          matchEmptyExport (trimStr content) || matchEmptyModuleExport (trimStr content))) := by
  have hca : hasContentAt fs p = decide (trimStr content ≠ "") := by
    simp [hasContentAt, getFileContent, h3]
  constructor
  · unfold handleFile
    dsimp only
    rw [h1]
    have h2' : (ctx.skipCritical && true && isCriticalFile node.name) = false := by
      rw [Bool.and_true]; exact h2
    rw [if_neg (by simp), if_neg (by rw [h2']; simp), if_pos rfl, hca]
    by_cases htr : trimStr content = ""
    · have hdec : decide (trimStr content ≠ "") = false := by simp [htr]
      rw [hdec]
      simp only [Bool.and_false, Bool.not_false, if_false, ite_true, ite_false]
      constructor
      · intro heq
        have h4 := congrArg (fun q => q.2.created.files) heq
        simp [incCreatedFiles, incPreservedFiles] at h4
      · intro hn; exact absurd htr hn
    · have hdec : decide (trimStr content ≠ "") = true := by simp [htr]
      rw [hdec]
      by_cases hp : ctx.preserveContent <;> simp [hp, htr]
  · unfold StructureValidator.fileHasContent
    rw [h3]
    by_cases htr : trimStr content = "" <;> simp [htr]

/-- Witness for the amended C5 at a concrete input: an existing
`app.js` containing `let x = 1` is preserved by the executor (its trim
is non-blank), and the adjuster's predicate evaluates to the placeholder
test of the trimmed content. -/
theorem content_predicates_amended_witness :
    (handleFile ⟨true, true, false, "unknown"⟩ (Node.mk "app.js" NodeType.file [] none)
        ["app.js"] true ([(["app.js"], FSEntry.file "let x = 1")], Stats.zero) =
      ([(["app.js"], FSEntry.file "let x = 1")], incPreservedFiles Stats.zero) ↔
        trimStr "let x = 1" ≠ "") ∧
    StructureValidator.fileHasContent [(["app.js"], FSEntry.file "let x = 1")] ["app.js"] =
      (decide (trimStr "let x = 1" ≠ "") &&
        !(matchOnlyBlockComment (trimStr "let x = 1") || matchOnlyLineComment (trimStr "let x = 1") ||
          matchOnlyHashComment (trimStr "let x = 1") || matchOnlyHtmlComment (trimStr "let x = 1") ||
          matchEmptyObject (trimStr "let x = 1") || matchEmptyArray (trimStr "let x = 1") ||
          matchEmptyExport (trimStr "let x = 1") || matchEmptyModuleExport (trimStr "let x = 1"))) :=
  content_predicates_amended ⟨true, true, false, "unknown"⟩
    (Node.mk "app.js" NodeType.file [] none) ["app.js"]
    [(["app.js"], FSEntry.file "let x = 1")] Stats.zero "let x = 1"
    (by decide) (by decide) (by decide)

/-- C6 — the safety precondition is dead code: `validateTargetDirectory`
rejects a merge root inside `/etc`, yet `smartMerge` (whose call path
never invokes the validator) happily creates a directory there. -/
theorem unsafe_root_never_checked_bug :
    validateTargetDirectory ["etc", "myapp"] =
      Except.error "Cannot operate on system directory" ∧
    smartMerge [Node.mk "src" NodeType.folder [] none] ["etc", "myapp"] defaultOptions [] =
      ([(["etc", "myapp", "src"], FSEntry.dir)], ⟨⟨1, 0⟩, ⟨0, 0⟩, ⟨0, 0⟩⟩) := by
  constructor
  · rfl
  · simp [smartMerge, StructureValidatorESM.validateAndAdjustStructure,
      StructureValidatorESM.removeDuplicateStructure, StructureValidatorESM.dedupe,
      StructureValidatorESM.adjustForExistingStructure,
      StructureValidatorESM.validateAgainstProjectType, defaultOptions,
      processMerge, finalPathFor, fsExists, fsRead, fsWrite, isSensitiveFolder,
      Stats.zero, incCreatedFolders, StructureValidatorESM.typeTag, toLowerStr,
      Node.name, Node.type, Node.targetPath, Node.children]

/-- C7 counterexample — a file node visited in directories-only mode
increments no counter at all: the stats record is returned unchanged,
not with one counter incremented. -/
theorem dirs_only_increments_no_counter :
    handleFile ⟨true, true, true, "unknown"⟩ (Node.mk "app.js" NodeType.file [] none)
        ["app.js"] false ([], Stats.zero) = ([], Stats.zero) := by
  decide

/-- C7 amended — every terminal file outcome other than the dirs-only
skip increments exactly one of the two file counters; the dirs-only skip
increments none; the UPDATE of an existing empty file is counted under
`created.files`; and a childless folder's outcome increments exactly one
of the three folder counters. -/
theorem stats_outcome_amended (ctx : MergeCtx) (node : Node) (tp : Path) (ex : Bool)
    (fs : FS) (stats : Stats) :
    (ctx.dirsOnly = true → handleFile ctx node tp ex (fs, stats) = (fs, stats)) ∧
    (ctx.dirsOnly = false →
      ((handleFile ctx node tp ex (fs, stats)).2 = incCreatedFiles stats ∨
        (handleFile ctx node tp ex (fs, stats)).2 = incPreservedFiles stats)) ∧
    (ctx.dirsOnly = false → ex = true →
      (ctx.skipCritical && isCriticalFile node.name) = false →
      hasContentAt fs tp = false →
      handleFile ctx node tp ex (fs, stats) =
        (fsWrite fs tp (FSEntry.file (getDefaultContent node.name)),
          incCreatedFiles stats)) ∧
    (∀ (name : String) (tpo : Option Path) (q : Path) (ex2 : Bool),
      (handleFolder ctx (Node.mk name NodeType.folder [] tpo) q ex2 (fs, stats)).2 =
          incCreatedFolders stats ∨
        (handleFolder ctx (Node.mk name NodeType.folder [] tpo) q ex2 (fs, stats)).2 =
          incPreservedFolders stats ∨
        (handleFolder ctx (Node.mk name NodeType.folder [] tpo) q ex2 (fs, stats)).2 =
          incSkippedFolders stats) := by
  refine ⟨?_, ?_, ?_, ?_⟩
  · intro hd; unfold handleFile; rw [hd]; simp
  · intro hd
    unfold handleFile
    dsimp only
    rw [hd]
    repeat' split
    all_goals simp_all
  · intro hd hex hcrit hhc
    unfold handleFile
    dsimp only
    rw [hd, hex]
    have hcrit' : (ctx.skipCritical && true && isCriticalFile node.name) = false := by
      rw [Bool.and_true]; exact hcrit
    rw [if_neg (by simp), if_neg (by rw [hcrit']; simp), if_pos rfl, hhc]
    simp
  · intro name tpo q ex2
    unfold handleFolder
    cases ex2 <;> by_cases hs : isSensitiveFolder name <;> simp [hs]

/-- Witness for the amended C7: an existing empty `index.css` is
re-written with the default stylesheet content and counted under
`created.files` (an UPDATE), not under `preserved.files`. -/
theorem stats_outcome_amended_witness :
    handleFile ⟨true, true, false, "unknown"⟩ (Node.mk "index.css" NodeType.file [] none)
        ["src", "index.css"] true ([(["src", "index.css"], FSEntry.file "")], Stats.zero) =
      (fsWrite [(["src", "index.css"], FSEntry.file "")] ["src", "index.css"]
        (FSEntry.file (getDefaultContent "index.css")), incCreatedFiles Stats.zero) :=
  (stats_outcome_amended ⟨true, true, false, "unknown"⟩
    (Node.mk "index.css" NodeType.file [] none) ["src", "index.css"] true
    [(["src", "index.css"], FSEntry.file "")] Stats.zero).2.2.1
    rfl rfl (by decide) (by decide)

/-- C8 counterexample — the collapse is not limited to the root level:
in a walk rooted at `home/dev`, a root folder `dev` collapses onto the
root and its child folder, also named `dev`, collapses again onto the
same directory; both are counted preserved and no `home/dev/dev` is
ever created, whereas the claim's root-only rule would resolve the
child to `home/dev/dev`. -/
theorem collapse_not_only_at_root_cex :
    processMerge ⟨true, true, false, "unknown"⟩
        [Node.mk "dev" NodeType.folder [Node.mk "dev" NodeType.folder [] none] none]
        ["home", "dev"] ([(["home", "dev"], FSEntry.dir)], Stats.zero) =
      ([(["home", "dev"], FSEntry.dir)], ⟨⟨0, 0⟩, ⟨2, 0⟩, ⟨0, 0⟩⟩) ∧
    fsRead [(["home", "dev"], FSEntry.dir)] ["home", "dev", "dev"] = none := by
  constructor
  · simp [processMerge, finalPathFor, fsExists, fsRead, isSensitiveFolder,
      incPreservedFolders, Stats.zero, toLowerStr,
      Node.name, Node.type, Node.targetPath, Node.children]
  · decide

/-- C8 amended — the collapse applies at every level of the walk: in
any directory `dir` of the walk (root or nested), a Folder node without
`targetPath` whose name equals the basename of `dir` is handled at `dir`
itself; otherwise the node resolves to `dir/<name>`, and an explicit
`targetPath` resolves under `dir`. -/
theorem collapse_applies_every_level (ctx : MergeCtx) (name : String)
    (children rest : List Node) (dir : Path) (st : FS × Stats) :
    (dir.getLast? = some name →
      processMerge ctx (Node.mk name NodeType.folder children none :: rest) dir st =
        processMerge ctx rest dir
          (handleFolder ctx (Node.mk name NodeType.folder children none) dir
            (fsExists st.1 dir) st)) ∧
    (dir.getLast? ≠ some name →
      processMerge ctx (Node.mk name NodeType.folder children none :: rest) dir st =
        processMerge ctx rest dir
          (handleFolder ctx (Node.mk name NodeType.folder children none) (dir ++ [name])
            (fsExists st.1 (dir ++ [name])) st)) ∧
    (∀ tp : Path, finalPathFor (Node.mk name NodeType.folder children (some tp)) dir =
      dir ++ tp) := by
  refine ⟨?_, ?_, ?_⟩
  · intro h
    rw [processMerge_cons_folder]
    have hfp : finalPathFor (Node.mk name NodeType.folder children none) dir = dir := by
      unfold finalPathFor
      simp [Node.targetPath, Node.name, Node.type, h]
    rw [hfp]
  · intro h
    rw [processMerge_cons_folder]
    have hfp : finalPathFor (Node.mk name NodeType.folder children none) dir =
        dir ++ [name] := by
      unfold finalPathFor
      simp [Node.targetPath, Node.name, Node.type, h]
    rw [hfp]
  · intro tp
    unfold finalPathFor
    simp [Node.targetPath]

/-- Witness for the amended C8 at a concrete nested directory: a folder
named like the basename of the (non-root) walk directory is handled at
that directory itself. -/
theorem collapse_applies_every_level_witness :
    processMerge ⟨true, true, false, "unknown"⟩
        [Node.mk "dev" NodeType.folder [] none] ["home", "dev"]
        ([(["home", "dev"], FSEntry.dir)], Stats.zero) =
      processMerge ⟨true, true, false, "unknown"⟩ [] ["home", "dev"]
        (handleFolder ⟨true, true, false, "unknown"⟩
          (Node.mk "dev" NodeType.folder [] none) ["home", "dev"]
          (fsExists [(["home", "dev"], FSEntry.dir)] ["home", "dev"])
          ([(["home", "dev"], FSEntry.dir)], Stats.zero)) :=
  (collapse_applies_every_level ⟨true, true, false, "unknown"⟩ "dev" [] []
    ["home", "dev"] ([(["home", "dev"], FSEntry.dir)], Stats.zero)).1 (by decide)

/-- C10 — the `preserveContent` option is behaviorally inert: for every
file node and filesystem state, `handleFile` computes the same result
with `preserveContent = false` as with `preserveContent = true`; in
particular, an existing file that is non-blank after trimming is counted
in `preserved.files` and left untouched on both settings. -/
theorem preserve_content_option_inert (sk d : Bool) (pt : String) (node : Node)
    (tp : Path) (ex : Bool) (fs : FS) (stats : Stats) :
    handleFile ⟨false, sk, d, pt⟩ node tp ex (fs, stats) =
      handleFile ⟨true, sk, d, pt⟩ node tp ex (fs, stats) ∧
    (d = false → ex = true → hasContentAt fs tp = true → ∀ b : Bool,
      handleFile ⟨b, sk, d, pt⟩ node tp ex (fs, stats) = (fs, incPreservedFiles stats)) := by
  constructor
  · unfold handleFile
    dsimp only
    by_cases hd : d <;> by_cases hcrit : (sk && ex && isCriticalFile node.name) <;>
      by_cases hex : ex <;> by_cases hc : hasContentAt fs tp <;>
        simp [hd, hcrit, hex, hc]
  · intro hd hex hc b
    unfold handleFile
    dsimp only
    rw [hd, hex] at *
    by_cases hcrit : (sk && true && isCriticalFile node.name) <;>
      cases b <;> simp [hcrit, hc]

theorem hasContentAt_spec (fs : FS) (p : Path) (h : hasContentAt fs p = true) :
    ∃ c, fsRead fs p = some (FSEntry.file c) ∧ trimStr c ≠ "" := by
  unfold hasContentAt getFileContent at h
  rcases hr : fsRead fs p with _ | e
  · rw [hr] at h; simp at h
  · cases e with
    | dir => rw [hr] at h; simp at h
    | file c =>
        rw [hr] at h
        simp at h
        exact ⟨c, rfl, h⟩

theorem hasContentAt_of_file (fs : FS) (p : Path) (c : String)
    (hr : fsRead fs p = some (FSEntry.file c)) (hc : trimStr c ≠ "") :
    hasContentAt fs p = true := by
  unfold hasContentAt getFileContent
  rw [hr]
  simpa using hc

theorem fileReadyAt_of_file (ctx : MergeCtx) (fs : FS) (name : String) (p : Path)
    (c : String) (hr : fsRead fs p = some (FSEntry.file c)) (hc : trimStr c ≠ "") :
    fileReadyAt ctx fs name p = true := by
  unfold fileReadyAt fsExists
  rw [hr]
  simp [hc]

theorem fileReadyAt_of_critical (ctx : MergeCtx) (fs : FS) (name : String) (p : Path)
    (hex : fsExists fs p = true)
    (hcrit : (ctx.skipCritical && isCriticalFile name) = true) :
    fileReadyAt ctx fs name p = true := by
  unfold fileReadyAt
  rw [hex, hcrit]
  simp

theorem fileReadyAt_mono (ctx : MergeCtx) (fs fs' : FS) (name : String) (p : Path)
    (hex : fsExists fs p = true → fsExists fs' p = true)
    (hfile : ∀ c, fsRead fs p = some (FSEntry.file c) → trimStr c ≠ "" →
      fsRead fs' p = some (FSEntry.file c))
    (h : fileReadyAt ctx fs name p = true) : fileReadyAt ctx fs' name p = true := by
  simp only [fileReadyAt, Bool.and_eq_true, Bool.or_eq_true] at h ⊢
  obtain ⟨h1, h2⟩ := h
  refine ⟨hex h1, ?_⟩
  rcases h2 with h2 | h2
  · exact Or.inl h2
  · right
    rcases hr : fsRead fs p with _ | e
    · rw [hr] at h2; simp at h2
    · cases e with
      | dir => rw [hr] at h2; simp at h2
      | file c =>
          rw [hr] at h2
          simp only [decide_eq_true_eq] at h2
          rw [hfile c hr h2]
          simpa using h2

theorem treeReady_mono (ctx : MergeCtx) (fs fs' : FS)
    (hex : ∀ p, fsExists fs p = true → fsExists fs' p = true)
    (hfile : ∀ p c, fsRead fs p = some (FSEntry.file c) → trimStr c ≠ "" →
      fsRead fs' p = some (FSEntry.file c)) :
    ∀ (tree : List Node) (dir : Path),
      treeReady ctx fs tree dir = true → treeReady ctx fs' tree dir = true
  | [], _, _ => by rw [treeReady]
  | Node.mk name NodeType.folder children tp :: rest, dir, h => by
      rw [treeReady] at h ⊢
      rw [Bool.and_eq_true] at h ⊢
      obtain ⟨h1, h2⟩ := h
      refine ⟨?_, treeReady_mono ctx fs fs' hex hfile rest dir h2⟩
      by_cases hs : isSensitiveFolder name
      · simp [hs]
      · rw [if_neg (by simp [hs])] at h1 ⊢
        rw [Bool.and_eq_true] at h1 ⊢
        exact ⟨hex _ h1.1, treeReady_mono ctx fs fs' hex hfile children _ h1.2⟩
  | Node.mk name NodeType.file children tp :: rest, dir, h => by
      rw [treeReady] at h ⊢
      rw [Bool.and_eq_true] at h ⊢
      obtain ⟨h1, h2⟩ := h
      exact ⟨fileReadyAt_mono ctx fs fs' _ _ (hex _) (hfile _) h1,
        treeReady_mono ctx fs fs' hex hfile rest dir h2⟩
termination_by tree _ => sizeOf tree
decreasing_by all_goals (simp_wf; try omega)

theorem handleFile_ready (ctx : MergeCtx) (name : String) (children : List Node)
    (tp : Option Path) (fp : Path) (fs : FS) (stats : Stats)
    (hd : ctx.dirsOnly = false)
    (hdef : trimStr (getDefaultContent name) ≠ "") :
    fileReadyAt ctx
      (handleFile ctx (Node.mk name NodeType.file children tp) fp
        (fsExists fs fp) (fs, stats)).1 name fp = true := by
  unfold handleFile
  dsimp only
  simp only [Node.name]
  rw [hd, if_neg (by simp)]
  split
  · rename_i hcrit
    simp only [Bool.and_eq_true] at hcrit
    obtain ⟨⟨hsk, hex⟩, hcr⟩ := hcrit
    exact fileReadyAt_of_critical ctx fs name fp hex (by simp [hsk, hcr])
  · split
    · split
      · rename_i hpc
        rw [Bool.and_eq_true] at hpc
        obtain ⟨c, hr, hc⟩ := hasContentAt_spec fs fp hpc.2
        exact fileReadyAt_of_file ctx fs name fp c hr hc
      · split
        · exact fileReadyAt_of_file ctx _ name fp _
            (fsRead_write_self fs fp (FSEntry.file (getDefaultContent name))) hdef
        · rename_i hnc
          have hc : hasContentAt fs fp = true := by
            rcases hb : hasContentAt fs fp
            · rw [hb] at hnc; simp at hnc
            · rfl
          obtain ⟨c, hr, hc'⟩ := hasContentAt_spec fs fp hc
          exact fileReadyAt_of_file ctx fs name fp c hr hc'
    · exact fileReadyAt_of_file ctx _ name fp _
        (fsRead_write_self fs fp (FSEntry.file (getDefaultContent name))) hdef

theorem handleFile_noop (ctx : MergeCtx) (name : String) (children : List Node)
    (tp : Option Path) (fp : Path) (fs : FS) (stats : Stats)
    (h : fileReadyAt ctx fs name fp = true) :
    (handleFile ctx (Node.mk name NodeType.file children tp) fp
      (fsExists fs fp) (fs, stats)).1 = fs ∧
    (handleFile ctx (Node.mk name NodeType.file children tp) fp
      (fsExists fs fp) (fs, stats)).2.created = stats.created := by
  unfold fileReadyAt at h
  rw [Bool.and_eq_true] at h
  obtain ⟨hex, hdisj⟩ := h
  rw [Bool.or_eq_true] at hdisj
  unfold handleFile
  dsimp only
  simp only [Node.name]
  by_cases hd : ctx.dirsOnly
  · simp [hd]
  · rw [if_neg (by simp [hd]), hex]
    by_cases hcrit : (ctx.skipCritical && isCriticalFile name) = true
    · rw [if_pos (by rw [Bool.and_true]; exact hcrit)]
      simp [incPreservedFiles]
    · rw [if_neg (by rw [Bool.and_true]; exact hcrit)]
      have hc : hasContentAt fs fp = true := by
        rcases hdisj with hdisj | hdisj
        · exact absurd hdisj hcrit
        · rcases hr : fsRead fs fp with _ | e
          · rw [hr] at hdisj; simp at hdisj
          · cases e with
            | dir => rw [hr] at hdisj; simp at hdisj
            | file c =>
                rw [hr] at hdisj
                simp only [decide_eq_true_eq] at hdisj
                exact hasContentAt_of_file fs fp c hr hdisj
      rw [if_pos rfl, hc]
      by_cases hp : ctx.preserveContent <;> simp [hp, incPreservedFiles]

theorem handleFolder_eq (ctx : MergeCtx) (name : String) (children : List Node)
    (tp : Option Path) (q : Path) (ex : Bool) (fs : FS) (stats : Stats) :
    handleFolder ctx (Node.mk name NodeType.folder children tp) q ex (fs, stats) =
      if isSensitiveFolder name then
        (if !ex then (fs, incSkippedFolders stats) else (fs, incPreservedFolders stats))
      else
        (if children.length > 0 then
          processMerge ctx children q
            (if !ex then (fsWrite fs q FSEntry.dir, incCreatedFolders stats)
             else (fs, incPreservedFolders stats))
         else
          (if !ex then (fsWrite fs q FSEntry.dir, incCreatedFolders stats)
           else (fs, incPreservedFolders stats))) := by
  unfold handleFolder
  rfl

theorem processMerge_ready_post (ctx : MergeCtx) (hd : ctx.dirsOnly = false) :
    ∀ (tree : List Node) (dir : Path) (fs : FS) (stats : Stats),
      defaultsNonBlank tree = true →
      treeReady ctx (processMerge ctx tree dir (fs, stats)).1 tree dir = true
  | [], _, _, _, _ => by rw [processMerge_nil, treeReady]
  | Node.mk name NodeType.folder children tp :: rest, dir, fs, stats, h => by
      rw [defaultsNonBlank, Bool.and_eq_true] at h
      obtain ⟨hch, hrest⟩ := h
      rw [processMerge_cons_folder]
      obtain ⟨fs1, s1, heq⟩ :
          ∃ a b, handleFolder ctx (Node.mk name NodeType.folder children tp)
            (finalPathFor (Node.mk name NodeType.folder children tp) dir)
            (fsExists fs (finalPathFor (Node.mk name NodeType.folder children tp) dir))
            (fs, stats) = (a, b) := ⟨_, _, rfl⟩
      rw [heq]
      rw [treeReady, Bool.and_eq_true]
      have hnode1 : (if isSensitiveFolder name then true
          else fsExists fs1 (finalPathFor (Node.mk name NodeType.folder children tp) dir) &&
            treeReady ctx fs1 children
              (finalPathFor (Node.mk name NodeType.folder children tp) dir)) = true := by
        by_cases hs : isSensitiveFolder name
        · simp [hs]
        · rw [if_neg (by simp [hs])]
          rw [Bool.and_eq_true]
          rw [handleFolder_eq, if_neg (by simp [hs])] at heq
          by_cases hex : fsExists fs (finalPathFor (Node.mk name NodeType.folder children tp) dir) = true
          · simp only [hex, Bool.not_true, Bool.false_eq_true, if_false] at heq
            by_cases hlen : children.length > 0
            · rw [if_pos hlen] at heq
              constructor
              · have hm := processMerge_exists_mono ctx children
                  (finalPathFor (Node.mk name NodeType.folder children tp) dir)
                  fs (incPreservedFolders stats) _ hex
                rw [heq] at hm
                exact hm
              · have hp := processMerge_ready_post ctx hd children
                  (finalPathFor (Node.mk name NodeType.folder children tp) dir)
                  fs (incPreservedFolders stats) hch
                rw [heq] at hp
                exact hp
            · rw [if_neg hlen] at heq
              have hfs1 : fs = fs1 := congrArg Prod.fst heq
              have hch0 : children = [] := List.length_eq_zero.mp (by omega)
              rw [← hfs1]
              exact ⟨hex, by rw [hch0, treeReady]⟩
          · have hex' : fsExists fs (finalPathFor (Node.mk name NodeType.folder children tp) dir) = false := by
              rcases hb : fsExists fs (finalPathFor (Node.mk name NodeType.folder children tp) dir)
              · rfl
              · exact absurd hb hex
            simp only [hex', Bool.not_false, if_true] at heq
            have hexW : fsExists
                (fsWrite fs (finalPathFor (Node.mk name NodeType.folder children tp) dir) FSEntry.dir)
                (finalPathFor (Node.mk name NodeType.folder children tp) dir) = true := by
              unfold fsExists
              rw [fsRead_write_self]
              rfl
            by_cases hlen : children.length > 0
            · rw [if_pos hlen] at heq
              constructor
              · have hm := processMerge_exists_mono ctx children
                  (finalPathFor (Node.mk name NodeType.folder children tp) dir)
                  (fsWrite fs (finalPathFor (Node.mk name NodeType.folder children tp) dir) FSEntry.dir)
                  (incCreatedFolders stats) _ hexW
                rw [heq] at hm
                exact hm
              · have hp := processMerge_ready_post ctx hd children
                  (finalPathFor (Node.mk name NodeType.folder children tp) dir)
                  (fsWrite fs (finalPathFor (Node.mk name NodeType.folder children tp) dir) FSEntry.dir)
                  (incCreatedFolders stats) hch
                rw [heq] at hp
                exact hp
            · rw [if_neg hlen] at heq
              have hfs1 : fsWrite fs (finalPathFor (Node.mk name NodeType.folder children tp) dir)
                  FSEntry.dir = fs1 := congrArg Prod.fst heq
              have hch0 : children = [] := List.length_eq_zero.mp (by omega)
              rw [← hfs1]
              exact ⟨hexW, by rw [hch0, treeReady]⟩
      constructor
      · by_cases hs : isSensitiveFolder name
        · simp [hs]
        · rw [if_neg (by simp [hs])] at hnode1 ⊢
          rw [Bool.and_eq_true] at hnode1 ⊢
          exact ⟨processMerge_exists_mono ctx rest dir fs1 s1 _ hnode1.1,
            treeReady_mono ctx fs1 _
              (fun p hp => processMerge_exists_mono ctx rest dir fs1 s1 p hp)
              (fun p c hr hc => processMerge_preserves ctx rest dir fs1 s1 p c hr hc)
              children _ hnode1.2⟩
      · exact processMerge_ready_post ctx hd rest dir fs1 s1 hrest
  | Node.mk name NodeType.file children tp :: rest, dir, fs, stats, h => by
      rw [defaultsNonBlank, Bool.and_eq_true] at h
      obtain ⟨hdef, hrest⟩ := h
      rw [processMerge_cons_file]
      obtain ⟨fs1, s1, heq⟩ :
          ∃ a b, handleFile ctx (Node.mk name NodeType.file children tp)
            (finalPathFor (Node.mk name NodeType.file children tp) dir)
            (fsExists fs (finalPathFor (Node.mk name NodeType.file children tp) dir))
            (fs, stats) = (a, b) := ⟨_, _, rfl⟩
      rw [heq]
      rw [treeReady, Bool.and_eq_true]
      constructor
      · have h1 := handleFile_ready ctx name children tp
          (finalPathFor (Node.mk name NodeType.file children tp) dir) fs stats hd
          (by simpa using hdef)
        rw [heq] at h1
        exact fileReadyAt_mono ctx fs1 _ name _
          (fun hp => processMerge_exists_mono ctx rest dir fs1 s1 _ hp)
          (fun c hr hc => processMerge_preserves ctx rest dir fs1 s1 _ c hr hc) h1
      · exact processMerge_ready_post ctx hd rest dir fs1 s1 hrest
termination_by tree _ _ _ => sizeOf tree
decreasing_by all_goals (simp_wf; try omega)

theorem processMerge_ready_noop (ctx : MergeCtx) :
    ∀ (tree : List Node) (dir : Path) (fs : FS) (stats : Stats),
      treeReady ctx fs tree dir = true →
      (processMerge ctx tree dir (fs, stats)).1 = fs ∧
      (processMerge ctx tree dir (fs, stats)).2.created = stats.created
  | [], _, _, _, _ => by rw [processMerge_nil]; exact ⟨rfl, rfl⟩
  | Node.mk name NodeType.folder children tp :: rest, dir, fs, stats, h => by
      rw [treeReady, Bool.and_eq_true] at h
      obtain ⟨hnode, hrest⟩ := h
      rw [processMerge_cons_folder]
      have hst1 : ∃ s1 : Stats,
          handleFolder ctx (Node.mk name NodeType.folder children tp)
            (finalPathFor (Node.mk name NodeType.folder children tp) dir)
            (fsExists fs (finalPathFor (Node.mk name NodeType.folder children tp) dir))
            (fs, stats) = (fs, s1) ∧ s1.created = stats.created := by
        rw [handleFolder_eq]
        by_cases hs : isSensitiveFolder name
        · rw [if_pos hs]
          by_cases hex : fsExists fs (finalPathFor (Node.mk name NodeType.folder children tp) dir) = true
          · rw [hex]
            exact ⟨incPreservedFolders stats, by simp, by simp [incPreservedFolders]⟩
          · have hex' : fsExists fs (finalPathFor (Node.mk name NodeType.folder children tp) dir) = false := by
              rcases hb : fsExists fs (finalPathFor (Node.mk name NodeType.folder children tp) dir)
              · rfl
              · exact absurd hb hex
            rw [hex']
            exact ⟨incSkippedFolders stats, by simp, by simp [incSkippedFolders]⟩
        · rw [if_neg (by simp [hs])] at hnode
          rw [Bool.and_eq_true] at hnode
          obtain ⟨hex, hchready⟩ := hnode
          rw [if_neg (by simp [hs]), hex]
          simp only [Bool.not_true, Bool.false_eq_true, if_false, ite_false]
          by_cases hlen : children.length > 0
          · rw [if_pos hlen]
            have hn := processMerge_ready_noop ctx children
              (finalPathFor (Node.mk name NodeType.folder children tp) dir)
              fs (incPreservedFolders stats) hchready
            refine ⟨(processMerge ctx children
                (finalPathFor (Node.mk name NodeType.folder children tp) dir)
                (fs, incPreservedFolders stats)).2, ?_, ?_⟩
            · exact Prod.ext hn.1 rfl
            · rw [hn.2]
              simp [incPreservedFolders]
          · rw [if_neg hlen]
            exact ⟨incPreservedFolders stats, rfl, by simp [incPreservedFolders]⟩
      obtain ⟨s1, heq, hcr⟩ := hst1
      rw [heq]
      have hr := processMerge_ready_noop ctx rest dir fs s1 hrest
      exact ⟨hr.1, by rw [hr.2, hcr]⟩
  | Node.mk name NodeType.file children tp :: rest, dir, fs, stats, h => by
      rw [treeReady, Bool.and_eq_true] at h
      obtain ⟨hnode, hrest⟩ := h
      rw [processMerge_cons_file]
      have hn := handleFile_noop ctx name children tp
        (finalPathFor (Node.mk name NodeType.file children tp) dir) fs stats hnode
      have heq : handleFile ctx (Node.mk name NodeType.file children tp)
          (finalPathFor (Node.mk name NodeType.file children tp) dir)
          (fsExists fs (finalPathFor (Node.mk name NodeType.file children tp) dir))
          (fs, stats) =
          (fs, (handleFile ctx (Node.mk name NodeType.file children tp)
            (finalPathFor (Node.mk name NodeType.file children tp) dir)
            (fsExists fs (finalPathFor (Node.mk name NodeType.file children tp) dir))
            (fs, stats)).2) :=
        Prod.ext hn.1 rfl
      rw [heq]
      have hr := processMerge_ready_noop ctx rest dir fs
        ((handleFile ctx (Node.mk name NodeType.file children tp)
          (finalPathFor (Node.mk name NodeType.file children tp) dir)
          (fsExists fs (finalPathFor (Node.mk name NodeType.file children tp) dir))
          (fs, stats)).2) hrest
      exact ⟨hr.1, by rw [hr.2, hn.2]⟩
termination_by tree _ _ _ => sizeOf tree
decreasing_by all_goals (simp_wf; try omega)

theorem validateAndAdjust_fs_independent (tree : List Node) (pi : ProjectInfo)
    (targetDir : Path) (fs : FS)
    (h3 : pi.type ≠ "frontend") (h4 : pi.type ≠ "backend") :
    ∀ g : FS, StructureValidatorESM.validateAndAdjustStructure g tree pi targetDir =
      StructureValidatorESM.validateAndAdjustStructure fs tree pi targetDir := by
  intro g
  unfold StructureValidatorESM.validateAndAdjustStructure
    StructureValidatorESM.adjustForExistingStructure
  dsimp only
  rw [if_neg h3, if_neg h4, if_neg h3, if_neg h4]

/-- C4 counterexample — running `smartMerge` a second time immediately
after a completed first run is not idempotent. First conjunct: the file
`data.xyz` (unknown extension, default content `""`) is created empty by
the first run and re-classified as empty by the second, which performs
an UPDATE counted in `created.files` (= 1, not 0) instead of resolving
to PRESERVE. Second conjunct: even with every default non-blank, under
project type `frontend` the first run's creation of `a/src/src` (via a
`targetPath`) makes the second run's `adjustFrontendStructure` pin the
`src` folder to `targetPath = "src"`, defeating the collapse and
re-creating its child at `a/src/src/b.js` (`created.files` = 1 again). -/
theorem second_run_counts_create_again :
    (smartMerge [Node.mk "data.xyz" NodeType.file [] none] ["proj"] defaultOptions
      (smartMerge [Node.mk "data.xyz" NodeType.file [] none] ["proj"] defaultOptions
        [(["proj"], FSEntry.dir)]).1).2.created.files = 1 ∧
    (smartMerge
      [Node.mk "src" NodeType.folder [Node.mk "b.js" NodeType.file [] none] none,
       Node.mk "components" NodeType.folder [] (some ["src"])]
      ["a", "src"] ⟨true, true, false, "frontend", false⟩
      (smartMerge
        [Node.mk "src" NodeType.folder [Node.mk "b.js" NodeType.file [] none] none,
         Node.mk "components" NodeType.folder [] (some ["src"])]
        ["a", "src"] ⟨true, true, false, "frontend", false⟩
        [(["a", "src"], FSEntry.dir)]).1).2.created.files = 1 := by
  refine ⟨?_, ?_⟩
  · simp [smartMerge, StructureValidatorESM.validateAndAdjustStructure,
      StructureValidatorESM.removeDuplicateStructure, StructureValidatorESM.dedupe,
      StructureValidatorESM.adjustForExistingStructure,
      StructureValidatorESM.validateAgainstProjectType, defaultOptions,
      processMerge, handleFile, finalPathFor, fsExists, fsRead, fsWrite,
      getFileContent, hasContentAt, getDefaultContent, isCriticalFile, extname,
      basenameMinusExt, Stats.zero, incCreatedFiles, incCreatedFolders,
      incPreservedFolders, StructureValidatorESM.typeTag,
      Node.name, Node.type, Node.targetPath, Node.children, toLowerStr, trimStr,
      strStarts, strEnds, strLen, listHasPre, listHasSub, containsStr, isWsChar,
      capitalize, dropRightStr]
  · have h1 :
        (smartMerge
          [Node.mk "src" NodeType.folder [Node.mk "b.js" NodeType.file [] none] none,
           Node.mk "components" NodeType.folder [] (some ["src"])]
          ["a", "src"] ⟨true, true, false, "frontend", false⟩
          [(["a", "src"], FSEntry.dir)]).1 =
        [(["a", "src", "src"], FSEntry.dir),
         (["a", "src", "b.js"], FSEntry.file "// JavaScript file\n"),
         (["a", "src"], FSEntry.dir)] := by
      simp [smartMerge, StructureValidatorESM.validateAndAdjustStructure,
        StructureValidatorESM.removeDuplicateStructure, StructureValidatorESM.dedupe,
        StructureValidatorESM.adjustForExistingStructure,
        StructureValidatorESM.adjustFrontendStructure,
        StructureValidatorESM.validateAgainstProjectType,
        StructureValidatorESM.isFrontendProject,
        processMerge, handleFile, finalPathFor, fsExists, fsRead, fsWrite,
        getFileContent, hasContentAt, getDefaultContent, isCriticalFile, extname,
        isSensitiveFolder, incPreservedFiles, incSkippedFolders, incSkippedFiles,
        basenameMinusExt, Stats.zero, incCreatedFiles, incCreatedFolders,
        incPreservedFolders, StructureValidatorESM.typeTag,
        Node.name, Node.type, Node.targetPath, Node.children, toLowerStr, trimStr,
        strStarts, strEnds, strLen, listHasPre, listHasSub, containsStr, isWsChar,
        capitalize, dropRightStr]
    rw [h1]
    simp [smartMerge, StructureValidatorESM.validateAndAdjustStructure,
      StructureValidatorESM.removeDuplicateStructure, StructureValidatorESM.dedupe,
      StructureValidatorESM.adjustForExistingStructure,
      StructureValidatorESM.adjustFrontendStructure,
      StructureValidatorESM.validateAgainstProjectType,
      StructureValidatorESM.isFrontendProject,
      processMerge, handleFile, finalPathFor, fsExists, fsRead, fsWrite,
      getFileContent, hasContentAt, getDefaultContent, isCriticalFile, extname,
      isSensitiveFolder, incPreservedFiles, incSkippedFolders, incSkippedFiles,
      basenameMinusExt, Stats.zero, incCreatedFiles, incCreatedFolders,
      incPreservedFolders, StructureValidatorESM.typeTag,
      Node.name, Node.type, Node.targetPath, Node.children, toLowerStr, trimStr,
      strStarts, strEnds, strLen, listHasPre, listHasSub, containsStr, isWsChar,
      capitalize, dropRightStr]

/-- C4 amended — the second run is idempotent whenever (a) file creation
is enabled (`dirsOnly = false`), (b) every file node of the adjusted
tree has a non-blank provider default (which excludes the empty defaults
of unknown extensions), and (c) the project type is neither `"frontend"`
nor `"backend"`, whose adjusters remap paths depending on what exists on
disk and so can retarget nodes between runs: then the second run leaves
the filesystem unchanged and performs zero creates (`created = {0, 0}`),
every visited node resolving to a preserve or skip. -/
theorem second_run_zero_creates (tree : List Node) (targetDir : Path)
    (options : MergeOptions) (fs : FS)
    (h1 : options.dirsOnly = false)
    (h2 : defaultsNonBlank (StructureValidatorESM.validateAndAdjustStructure fs tree
      ⟨options.projectType, options.isNested⟩ targetDir) = true)
    (h3 : options.projectType ≠ "frontend")
    (h4 : options.projectType ≠ "backend") :
    (smartMerge tree targetDir options (smartMerge tree targetDir options fs).1).1 =
      (smartMerge tree targetDir options fs).1 ∧
    (smartMerge tree targetDir options (smartMerge tree targetDir options fs).1).2.created =
      StatPair.mk 0 0 := by
  unfold smartMerge
  dsimp only
  simp only [validateAndAdjust_fs_independent tree ⟨options.projectType, options.isNested⟩
    targetDir fs h3 h4]
  have hready := processMerge_ready_post
    ⟨options.preserveContent, options.skipCritical, options.dirsOnly, options.projectType⟩
    h1
    (StructureValidatorESM.validateAndAdjustStructure fs tree
      ⟨options.projectType, options.isNested⟩ targetDir)
    targetDir fs Stats.zero h2
  have hnoop := processMerge_ready_noop
    ⟨options.preserveContent, options.skipCritical, options.dirsOnly, options.projectType⟩
    (StructureValidatorESM.validateAndAdjustStructure fs tree
      ⟨options.projectType, options.isNested⟩ targetDir)
    targetDir
    ((processMerge
      ⟨options.preserveContent, options.skipCritical, options.dirsOnly, options.projectType⟩
      (StructureValidatorESM.validateAndAdjustStructure fs tree
        ⟨options.projectType, options.isNested⟩ targetDir)
      targetDir (fs, Stats.zero)).1)
    Stats.zero hready
  exact ⟨hnoop.1, by rw [hnoop.2]; rfl⟩

/-- Witness for the amended C4 at a concrete run: `app.css` has the
non-blank default stylesheet content, so the second run changes nothing
and creates nothing. -/
theorem second_run_zero_creates_witness :
    (smartMerge [Node.mk "app.css" NodeType.file [] none] ["proj"] defaultOptions
      (smartMerge [Node.mk "app.css" NodeType.file [] none] ["proj"] defaultOptions
        [(["proj"], FSEntry.dir)]).1).1 =
      (smartMerge [Node.mk "app.css" NodeType.file [] none] ["proj"] defaultOptions
        [(["proj"], FSEntry.dir)]).1 ∧
    (smartMerge [Node.mk "app.css" NodeType.file [] none] ["proj"] defaultOptions
      (smartMerge [Node.mk "app.css" NodeType.file [] none] ["proj"] defaultOptions
        [(["proj"], FSEntry.dir)]).1).2.created = StatPair.mk 0 0 :=
  second_run_zero_creates [Node.mk "app.css" NodeType.file [] none] ["proj"]
    defaultOptions [(["proj"], FSEntry.dir)] rfl
    (by simp [StructureValidatorESM.validateAndAdjustStructure,
      StructureValidatorESM.removeDuplicateStructure, StructureValidatorESM.dedupe,
      StructureValidatorESM.adjustForExistingStructure,
      StructureValidatorESM.validateAgainstProjectType, StructureValidatorESM.typeTag,
      defaultsNonBlank, getDefaultContent, extname, basenameMinusExt, trimStr,
      toLowerStr, strEnds, strLen, dropRightStr, isWsChar, defaultOptions,
      Node.name, Node.type, Node.targetPath, Node.children])
    (by decide) (by decide)

theorem keepNode_folder (fs : FS) (pt : String) (bp : Path) (name : String)
    (c : List Node) (tp : Option Path) :
    StructureValidator.keepNode fs pt bp (Node.mk name NodeType.folder c tp) = true := by
  unfold StructureValidator.keepNode
  simp [Node.type]

theorem keepNode_file (fs : FS) (pt : String) (bp : Path) (name : String)
    (c : List Node) (tp : Option Path) :
    StructureValidator.keepNode fs pt bp (Node.mk name NodeType.file c tp) = true ↔
      ¬(fsExists fs (bp ++ [name]) = true ∧
        (StructureValidator.isCriticalFile pt name = true ∨
          StructureValidator.fileHasContent fs (bp ++ [name]) = true)) := by
  unfold StructureValidator.keepNode
  by_cases hex : fsExists fs (bp ++ [name]) = true <;>
    by_cases hcrit : StructureValidator.isCriticalFile pt name = true <;>
      by_cases hcont : StructureValidator.fileHasContent fs (bp ++ [name]) = true <;>
        simp [Node.type, Node.name, hex, hcrit, hcont]

theorem mem_cleanMap_file (fs : FS) (pt : String) :
    ∀ (bp : Path) (tree : List Node) (name : String) (c : List Node) (tp : Option Path),
      Node.mk name NodeType.file c tp ∈ StructureValidator.cleanMap fs pt bp tree ↔
        Node.mk name NodeType.file c tp ∈ tree
  | _, [], _, _, _ => by
      rw [StructureValidator.cleanMap]
  | bp, Node.mk n t ch tpo :: rest, name, c, tp => by
      rw [StructureValidator.cleanMap]
      rw [List.mem_cons, List.mem_cons, mem_cleanMap_file fs pt bp rest name c tp]
      constructor
      · rintro (h | h)
        · left
          split at h
          · rename_i hcond
            obtain ⟨ht, -⟩ := hcond
            rw [Node.mk.injEq] at h
            rw [ht] at h
            exact absurd h.2.1 (by simp)
          · exact h
        · right; exact h
      · rintro (h | h)
        · left
          split
          · rename_i hcond
            obtain ⟨ht, -⟩ := hcond
            rw [Node.mk.injEq] at h
            rw [ht] at h
            exact absurd h.2.1 (by simp)
          · exact h
        · right; exact h

theorem mem_removeDuplicate (fs : FS) (pt : String) (bp : Path) (tree : List Node)
    (a : Node) :
    a ∈ StructureValidator.removeDuplicateStructure fs pt bp tree ↔
      a ∈ StructureValidator.cleanMap fs pt bp tree ∧
        StructureValidator.keepNode fs pt bp a = true := by
  unfold StructureValidator.removeDuplicateStructure
  exact List.mem_filter

theorem cleanMap_cons_eq (fs : FS) (pt : String) (bp : Path) (name : String)
    (ty : NodeType) (children : List Node) (tp : Option Path) (rest : List Node) :
    StructureValidator.cleanMap fs pt bp (Node.mk name ty children tp :: rest) =
      (if ty = NodeType.folder ∧ fsExists fs (bp ++ [name]) = true ∧
          StructureValidator.folderHasSignificantContent fs (StructureValidator.fsFuel fs)
            (bp ++ [name]) = true then
        Node.mk name ty
          (if children.length > 0 then
            StructureValidator.removeDuplicateStructure fs pt (bp ++ [name]) children
           else children) tp
       else Node.mk name ty children tp) :: StructureValidator.cleanMap fs pt bp rest := by
  rw [StructureValidator.cleanMap]

theorem mem_cleanMap_folder (fs : FS) (pt : String) :
    ∀ (bp : Path) (tree : List Node) (name : String) (c : List Node) (tp : Option Path),
      Node.mk name NodeType.folder c tp ∈ tree →
      Node.mk name NodeType.folder
        (if fsExists fs (bp ++ [name]) = true ∧
            StructureValidator.folderHasSignificantContent fs (StructureValidator.fsFuel fs)
              (bp ++ [name]) = true then
          (if c.length > 0 then
            StructureValidator.removeDuplicateStructure fs pt (bp ++ [name]) c
           else c)
         else c) tp ∈ StructureValidator.cleanMap fs pt bp tree
  | _, [], _, _, _, h => absurd h (List.not_mem_nil _)
  | bp, Node.mk n t ch tpo :: rest, name, c, tp, h => by
      rw [List.mem_cons] at h
      rw [cleanMap_cons_eq]
      rcases h with h | h
      · rw [Node.mk.injEq] at h
        obtain ⟨h1, h2, h3, h4⟩ := h
        subst h1; subst h2; subst h3; subst h4
        by_cases hc : fsExists fs (bp ++ [name]) = true ∧
            StructureValidator.folderHasSignificantContent fs (StructureValidator.fsFuel fs)
              (bp ++ [name]) = true
        · rw [if_pos hc, if_pos ⟨rfl, hc.1, hc.2⟩]
          exact List.mem_cons_self _ _
        · rw [if_neg hc, if_neg (fun hx => hc ⟨hx.2.1, hx.2.2⟩)]
          exact List.mem_cons_self _ _
      · exact List.mem_cons_of_mem _ (mem_cleanMap_folder fs pt bp rest name c tp h)

/-- C9 counterexample — the conflict filter is not applied to every
file node: with `/src` existing on disk whose only entry is a hidden
`.env` file (excluded from the "significant content" scan), the folder
`src` lacks significant content, so its children are passed through
unfiltered and the nested `.env` node is retained — even though its
on-disk counterpart exists, is critical, and has content, which the
claim says must drop it. -/
theorem nested_conflict_file_retained_cex :
    StructureValidator.removeDuplicateStructure
        [(["src"], FSEntry.dir), (["src", ".env"], FSEntry.file "SECRET=1")] "unknown" []
        [Node.mk "src" NodeType.folder [Node.mk ".env" NodeType.file [] none] none] =
      [Node.mk "src" NodeType.folder [Node.mk ".env" NodeType.file [] none] none] ∧
    fsExists [(["src"], FSEntry.dir), (["src", ".env"], FSEntry.file "SECRET=1")]
      ["src", ".env"] = true ∧
    StructureValidator.isCriticalFile "unknown" ".env" = true ∧
    StructureValidator.fileHasContent
      [(["src"], FSEntry.dir), (["src", ".env"], FSEntry.file "SECRET=1")]
      ["src", ".env"] = true := by
  refine ⟨?_, by decide, by decide, by decide⟩
  simp [StructureValidator.removeDuplicateStructure, StructureValidator.cleanMap,
    StructureValidator.keepNode, StructureValidator.folderHasSignificantContent,
    StructureValidator.fsFuel, StructureValidator.readdir, StructureValidator.childName,
    fsExists, fsRead, Node.type, Node.name, toLowerStr, trimStr, isWsChar,
    strStarts, strEnds, listHasPre]

/-- C9 amended — at every level the conflict filter retains all Folder
nodes, and within one filtered list it drops a File node exactly when
its on-disk counterpart exists and is critical or has content; but the
filter recurses into a folder's children only when the folder's path
exists on disk and has significant content — otherwise the children
are passed through unfiltered. Part one gives each top-level folder's
exact image (children conflict-filtered under its path when the folder
exists with significant content, untouched otherwise); part two is the
drop condition for the file nodes of the filtered list. -/
theorem conflict_filtering_spec (fs : FS) (pt : String) (bp : Path) (tree : List Node) :
    (∀ (name : String) (c : List Node) (tp : Option Path),
      Node.mk name NodeType.folder c tp ∈ tree →
      Node.mk name NodeType.folder
        (if fsExists fs (bp ++ [name]) = true ∧
            StructureValidator.folderHasSignificantContent fs (StructureValidator.fsFuel fs)
              (bp ++ [name]) = true then
          (if c.length > 0 then
            StructureValidator.removeDuplicateStructure fs pt (bp ++ [name]) c
           else c)
         else c) tp ∈ StructureValidator.removeDuplicateStructure fs pt bp tree) ∧
    (∀ (name : String) (c : List Node) (tp : Option Path),
      Node.mk name NodeType.file c tp ∈
          StructureValidator.removeDuplicateStructure fs pt bp tree ↔
        (Node.mk name NodeType.file c tp ∈ tree ∧
          ¬(fsExists fs (bp ++ [name]) = true ∧
            (StructureValidator.isCriticalFile pt name = true ∨
              StructureValidator.fileHasContent fs (bp ++ [name]) = true)))) := by
  constructor
  · intro name c tp hmem
    have hc' := mem_cleanMap_folder fs pt bp tree name c tp hmem
    exact (mem_removeDuplicate fs pt bp tree _).mpr
      ⟨hc', keepNode_folder fs pt bp name _ tp⟩
  · intro name c tp
    rw [mem_removeDuplicate fs pt bp tree, mem_cleanMap_file fs pt bp tree name c tp,
      keepNode_file fs pt bp name c tp]

/-- Witness for the amended C9: with `app.js` existing on disk with
content and `src` absent, the folder `src` of the incoming tree is
retained with its (empty) children untouched. -/
theorem conflict_filtering_spec_witness :
    Node.mk "src" NodeType.folder [] none ∈
      StructureValidator.removeDuplicateStructure [(["app.js"], FSEntry.file "x")]
        "unknown" []
        [Node.mk "src" NodeType.folder [] none, Node.mk "app.js" NodeType.file [] none] := by
  have h := (conflict_filtering_spec [(["app.js"], FSEntry.file "x")] "unknown" []
    [Node.mk "src" NodeType.folder [] none, Node.mk "app.js" NodeType.file [] none]).1
    "src" [] none (List.mem_cons_self _ _)
  simpa [fsExists, fsRead] using h

/-- Witness for C10: with `preserveContent` disabled, an existing
non-blank `app.js` is still preserved and counted in `preserved.files`. -/
theorem preserve_content_option_inert_witness :
    handleFile ⟨false, true, false, "unknown"⟩ (Node.mk "app.js" NodeType.file [] none)
        ["app.js"] true ([(["app.js"], FSEntry.file "let x = 1")], Stats.zero) =
      ([(["app.js"], FSEntry.file "let x = 1")], incPreservedFiles Stats.zero) :=
  (preserve_content_option_inert true false "unknown"
    (Node.mk "app.js" NodeType.file [] none) ["app.js"] true
    [(["app.js"], FSEntry.file "let x = 1")] Stats.zero).2
    rfl rfl (by decide) false

end OneTap
